import Mathlib

/-!
Verification development for the AssetOptInViaOREID repository.

The repository orchestrates Algorand Standard Asset (ASA) transfers through two
paths: direct SDK calls (src/algo_utils.py) and a remote custodial signing
service (src/ore_id_utils.py).  This file shallowly embeds the orchestration
logic of those modules and proves (or refutes) the specification claims about
them.

Modelling conventions:
* Network clients (algod, indexer, the ORE ID HTTP service) are external
  collaborators; they are embedded as oracles: explicit function-valued
  parameters giving the response to each query the code makes.
* Python dict lookups with `.get` are embedded as `Option` values; Python
  truthiness on those values is made explicit in each definition.
* Submitted transactions and log lines are collected into explicit traces so
  that claims about "no transaction is submitted" or "the error is logged"
  become statements about those traces.
* Machine integers do not overflow in any of the quantities involved
  (balances, asset ids, amounts are arbitrary-precision in Python), so they
  are embedded as `Nat`.
-/

/-! # Confirmation poller: algo_utils.wait_for_confirmation

The Python function queries `client.pending_transaction_info(txid)` once, then
loops, re-querying after each `status_after_block` wait, until the returned
record has a truthy, positive `confirmed-round` field.  The client is embedded
as `poll : Nat → Option Nat`, giving the `confirmed-round` field returned by
the i-th `pending_transaction_info` query (`none` when the field is absent).
The `status()` / `status_after_block` bookkeeping does not influence control
flow, so it is not recorded.  Possible divergence is embedded with fuel: the
function returns `none` when the loop exceeds the supplied fuel, and a run
that diverges in Python returns `none` at every fuel.
-/

/-- Python condition `txinfo.get('confirmed-round') and txinfo.get('confirmed-round') > 0`:
a missing field (`None`) and a zero round are both falsy. -/
def confirmedPositive : Option Nat → Bool
  | none => false
  | some n => decide (0 < n)

/-- Fuel-indexed polling loop.  `i` is the index of the next
`pending_transaction_info` query; on success the result carries the final
transaction record's confirmed round and the total number of
`pending_transaction_info` queries made. -/
def waitForConfirmationAux (poll : Nat → Option Nat) : Nat → Nat → Option (Option Nat × Nat)
  | 0, _ => none
  | fuel + 1, i =>
    let txinfo := poll i
    if confirmedPositive txinfo then some (txinfo, i + 1)
    else waitForConfirmationAux poll fuel (i + 1)

/-- Embedding of `algo_utils.wait_for_confirmation` over the polling oracle. -/
def wait_for_confirmation (poll : Nat → Option Nat) (fuel : Nat) : Option (Option Nat × Nat) :=
  waitForConfirmationAux poll fuel 0

/-! # Funding-and-transfer orchestrator: algo_utils.fund_account_and_transfer_asa

The algod client is embedded as: the `amount` field of
`account_info(asa_receiver_address)` (an `Option Nat`, `.get` on the dict), a
send oracle giving `some txid` when `send_transaction` + `wait_for_confirmation`
succeed and `none` when they raise, and the SDK's `address_from_private_key`.
Every submitted transaction attempt is recorded in a trace together with its
outcome. -/

/-- A transaction submitted to the network by the direct-SDK path. -/
inductive Txn where
  | payment (sender receiver : String) (amt : Nat)
  | assetXfer (sender receiver : String) (amt : Nat) (asaId : Nat)
deriving DecidableEq

/-- One `send_transaction` attempt and whether it (with its confirmation) succeeded. -/
structure Attempt where
  txn : Txn
  ok : Bool
deriving DecidableEq

/-- Oracle for the algod client as used by the orchestrator. -/
structure AlgodClient where
  addrOfSk : String → String
  accountAmount : Option Nat
  send : Txn → Option String

def Attempt.isPayment : Attempt → Bool
  | ⟨Txn.payment _ _ _, _⟩ => true
  | _ => false

/-- Embedding of `algo_utils.payment_transaction`: builds and submits a plain
payment; on success returns a success message and `True`, on an exception a
failure message and `False`.  The submitted attempt is recorded. -/
def payment_transaction (c : AlgodClient) (senderSk receiver : String) (amount : Nat) :
    (String × Bool) × List Attempt :=
  let sender := c.addrOfSk senderSk
  let t := Txn.payment sender receiver amount
  match c.send t with
  | some txid =>
    (("Payment Transfer of amount " ++ toString amount ++ " Success in txn : " ++ txid, true),
      [⟨t, true⟩])
  | none =>
    (("Payment Transfer of amount " ++ toString amount ++ " fail for account: " ++ receiver,
      false), [⟨t, false⟩])

/-- Python condition
`not account_info.get('amount') or account_info.get('amount',0) < 200_000`:
a missing field and a zero balance are falsy, hence below threshold. -/
def belowThreshold : Option Nat → Bool
  | none => true
  | some n => n == 0 || n < 200000

/-- The remediation message returned when the receiver has no usable balance
and auto-funding is disabled. -/
def noInitialFundMsg (addr : String) : String :=
  "No initial amount found on Account: " ++ addr ++
    ". Add initial fund to the account via https://bank.testnet.algorand.network/"

/-- Embedding of `algo_utils.fund_account_and_transfer_asa`.  Queries the
receiver's balance; below the 200000 threshold it either submits a funding
payment (result ignored, as in the source) or returns the remediation failure;
then it builds, signs and submits the asset transfer and reports its outcome.
The Python `except` branch evaluates a tuple without returning it, so both the
exception path and the fall-through return the generic failure message. -/
def fund_account_and_transfer_asa (c : AlgodClient) (creatorSk receiver : String)
    (asaAmount asaId : Nat) (fundAccount : Bool := true) (fundAmount : Nat := 200000) :
    (String × Bool) × List Attempt :=
  let creator := c.addrOfSk creatorSk
  let amount := c.accountAmount
  if belowThreshold amount && !fundAccount then
    ((noInitialFundMsg receiver, false), [])
  else
    let ptrace :=
      if belowThreshold amount then (payment_transaction c creatorSk receiver fundAmount).2
      else []
    let t := Txn.assetXfer creator receiver asaAmount asaId
    match c.send t with
    | some txid => (("ASA Transfer Success in txn : " ++ txid, true), ptrace ++ [⟨t, true⟩])
    | none =>
      (("ASA Transfer Fail for account: " ++ receiver, false), ptrace ++ [⟨t, false⟩])

/-- A client under which the receiver has balance 0, every payment submission
raises, and the asset-transfer submission succeeds. -/
def c1Client : AlgodClient where
  addrOfSk := fun _ => "CREATOR"
  accountAmount := some 0
  send := fun t =>
    match t with
    | Txn.payment _ _ _ => none
    | Txn.assetXfer _ _ _ _ => some "TX1"

/-! # Asset/account query helpers: algo_utils.fetch_asset_info

The indexer client's `account_info(address, include_all=True)` response is
embedded as either an `IndexerHTTPError` message or a record carrying the
account's `amount` (via `.get` with default 0) and its `assets` list (absent
when the dict has no such key, which is the KeyError path in the source). -/

/-- Outcome of an indexer query: a response value or an IndexerHTTPError. -/
inductive IndexerResult (α : Type) where
  | ok (val : α)
  | httpError (msg : String)
deriving DecidableEq

/-- One entry of the indexer's `assets` list: its `asset-id` and `amount`. -/
structure AssetHolding where
  assetId : Nat
  amount : Nat
deriving DecidableEq

/-- The fields of `response['account']` that fetch_asset_info reads. -/
structure AccountRecord where
  amount : Nat
  assets : Option (List AssetHolding)
deriving DecidableEq

/-- One entry of the returned result list: keys asset_id and asset_amount. -/
structure AssetEntry where
  asset_id : Nat
  asset_amount : Nat
deriving DecidableEq

/-- The result dictionaries returned by the asset-listing helpers, paired in
the source with the success boolean: a failure dict carries a message and
(in most branches) the account amount; a success dict carries the account
amount, a message and the result list. -/
inductive FetchOut (α : Type) where
  | failure (msg : String) (account_amount : Option Nat)
  | success (account_amount : Nat) (msg : String) (result : List α)
deriving DecidableEq

/-- Python `'no accounts found for address' in _msg`. -/
def strContains (s pat : String) : Bool :=
  s.data.tails.any (fun t => pat.data.isPrefixOf t)

/-- Embedding of `algo_utils.fetch_asset_info`: queries the account, fails
with a remediation message when the balance is 0 (or the address unknown),
fails when the account has no `assets` key, and otherwise returns the asset
list, filtering out zero-amount holdings unless include_zero_assets is set. -/
def fetch_asset_info (resp : IndexerResult AccountRecord) (address : String)
    (includeZeroAssets : Bool := false) : FetchOut AssetEntry × Bool :=
  match resp with
  | IndexerResult.httpError msg =>
    if strContains msg "no accounts found for address" then
      (FetchOut.failure
        (msg ++ " Add initial fund to the account via https://bank.testnet.algorand.network/")
        (some 0), false)
    else (FetchOut.failure msg none, false)
  | IndexerResult.ok r =>
    if r.amount == 0 then
      (FetchOut.failure (noInitialFundMsg address) (some 0), false)
    else
      match r.assets with
      | none => (FetchOut.failure "Account doesn't have any asset" (some r.amount), false)
      | some asset_dict =>
        let non_zero :=
          if includeZeroAssets then asset_dict
          else asset_dict.filter (fun v => v.amount != 0)
        (FetchOut.success r.amount (toString non_zero.length ++ " asset found.")
          (non_zero.map (fun a => ⟨a.assetId, a.amount⟩)), true)


/-! # Detailed asset listing: algo_utils.fetch_asset_info_with_details

The per-asset metadata enrichment loop calls `indexer_client.asset_info` for
each (filtered) holding; the first attempt's IndexerHTTPError is logged and
retried once after a fixed 0.5 s sleep, the retry's failure (of any kind) is
logged and swallowed, and any non-IndexerHTTPError exception of the first
attempt propagates.  The lookups are embedded as an oracle from (position in
the list, attempt number) to an outcome; lookups, sleeps and log lines are
recorded as events.  The side query `search_transactions_by_address`, whose
result the source discards, is not modelled. -/

/-- Outcome of one `asset_info` metadata lookup. -/
inductive MetaOutcome where
  | found (name : String)
  | rateLimited (msg : String)
  | failed (msg : String)
deriving DecidableEq

/-- Events of the per-asset enrichment loop: a lookup (position, attempt),
a `time.sleep` in milliseconds, or a logged error. -/
inductive MetaEvent where
  | lookup (pos attempt : Nat)
  | sleepMs (ms : Nat)
  | logged (msg : String)
deriving DecidableEq

/-- A holding after enrichment: the metadata name merged into it, or `none`
when both lookups failed and the entry is left without an `asset` key. -/
structure EnrichedAsset where
  holding : AssetHolding
  name : Option String
deriving DecidableEq

/-- One iteration of the enrichment loop of fetch_asset_info_with_details:
look the asset up; on success merge and sleep 0.2 s; on IndexerHTTPError log
it, sleep 0.5 s, retry once, and either merge and sleep 0.5 s or log the
retry's failure; any other first-attempt exception propagates. -/
def enrichOne (lk : Nat → Nat → MetaOutcome) (pos : Nat) (ast : AssetHolding) :
    Except String (List MetaEvent × EnrichedAsset) :=
  match lk pos 0 with
  | MetaOutcome.found name =>
    Except.ok ([MetaEvent.lookup pos 0, MetaEvent.sleepMs 200], ⟨ast, some name⟩)
  | MetaOutcome.failed msg => Except.error msg
  | MetaOutcome.rateLimited msg =>
    match lk pos 1 with
    | MetaOutcome.found name =>
      Except.ok ([MetaEvent.lookup pos 0, MetaEvent.logged msg, MetaEvent.sleepMs 500,
        MetaEvent.lookup pos 1, MetaEvent.sleepMs 500], ⟨ast, some name⟩)
    | MetaOutcome.rateLimited m2 =>
      Except.ok ([MetaEvent.lookup pos 0, MetaEvent.logged msg, MetaEvent.sleepMs 500,
        MetaEvent.lookup pos 1, MetaEvent.logged m2], ⟨ast, none⟩)
    | MetaOutcome.failed m2 =>
      Except.ok ([MetaEvent.lookup pos 0, MetaEvent.logged msg, MetaEvent.sleepMs 500,
        MetaEvent.lookup pos 1, MetaEvent.logged m2], ⟨ast, none⟩)

/-- The enrichment loop over the filtered holdings, from a given position. -/
def enrichAll (lk : Nat → Nat → MetaOutcome) :
    Nat → List AssetHolding → Except String (List MetaEvent × List EnrichedAsset)
  | _, [] => Except.ok ([], [])
  | pos, a :: rest => do
    let (evs, e) ← enrichOne lk pos a
    let (evs2, es) ← enrichAll lk (pos + 1) rest
    Except.ok (evs ++ evs2, e :: es)

/-- One entry of the detailed result list: asset_id, asset_name, asset_amount. -/
structure DetailedEntry where
  asset_id : Nat
  asset_name : String
  asset_amount : Nat
deriving DecidableEq

/-- Embedding of `algo_utils.fetch_asset_info_with_details`: the account query
and filtering as in fetch_asset_info, then the enrichment loop, then the
result-list construction, whose KeyError on an entry left without metadata is
caught and turned into the "Required asset info error." failure result. -/
def fetch_asset_info_with_details (resp : IndexerResult AccountRecord)
    (lk : Nat → Nat → MetaOutcome) (address : String) (includeZeroAssets : Bool := false) :
    Except String ((FetchOut DetailedEntry × Bool) × List MetaEvent) :=
  match resp with
  | IndexerResult.httpError msg =>
    if strContains msg "no accounts found for address" then
      Except.ok ((FetchOut.failure
        (msg ++ " Add initial fund to the account via https://bank.testnet.algorand.network/")
        (some 0), false), [])
    else Except.ok ((FetchOut.failure msg none, false), [])
  | IndexerResult.ok r =>
    if r.amount == 0 then
      Except.ok ((FetchOut.failure (noInitialFundMsg address) (some 0), false), [])
    else
      match r.assets with
      | none =>
        Except.ok ((FetchOut.failure "Account doesn't have any asset" (some r.amount),
          false), [])
      | some asset_dict =>
        let non_zero :=
          if includeZeroAssets then asset_dict
          else asset_dict.filter (fun v => v.amount != 0)
        do
          let (evs, enriched) ← enrichAll lk 0 non_zero
          if enriched.all (fun e => e.name.isSome) then
            Except.ok ((FetchOut.success r.amount (toString non_zero.length ++ " asset found.")
              (enriched.map (fun e => ⟨e.holding.assetId, e.name.getD "", e.holding.amount⟩)),
              true), evs)
          else
            Except.ok ((FetchOut.failure "Required asset info error." (some r.amount),
              false), evs)

/-! # Custodial signing response handling (ore_id_utils) -/

/-- The fields of an ORE ID HTTP response that the signing orchestrator reads:
the status code, the parsed JSON body fields error, message and errorMessage
(`none` when the key is absent), and the raw content and text used in the
success/warning log lines. -/
structure OreResponse where
  statusCode : Nat
  error : Option String
  message : Option String
  errorMessage : Option String
  content : String
  text : String
deriving DecidableEq

/-- Python truthiness of `res_json.get(field)`: an absent key and an empty
string are both falsy. -/
def truthyStr : Option String → Bool
  | none => false
  | some s => !(s == "")

/-- Log lines emitted while handling a signing response. -/
inductive OreLog where
  | infoSuccess (content : String)
  | warnIssue (text : String)
  | errorField (msg : String)
deriving DecidableEq


/-! # JSON encoding: ore_id_utils.get_action_params and ore_id_asa_action

`get_action_params` is `base64.b64encode(json.dumps(d).encode('utf-8'))`
decoded back to text.  The external primitives are modelled concretely:
JSON values as the inductive `JVal` (numbers restricted to the integers
actually used; Python's floats are out of scope), `json.dumps` with its
default settings (`ensure_ascii=True`, separators `", "` and `": "`,
lowercase `\uXXXX` escapes with surrogate pairs above the basic plane),
UTF-8 encoding, and standard base64 with `=` padding.  `json.loads` is
modelled as a recursive-descent parser of the grammar `dumps` emits
(integer numbers; strict rejection of lone surrogates). -/

/-- A JSON value as produced by the repository's action dictionaries. -/
inductive JVal where
  | null
  | bool (b : Bool)
  | int (n : Int)
  | str (s : String)
  | arr (xs : List JVal)
  | obj (kvs : List (String × JVal))

/-- The opening brace character, written numerically. -/
def lbrace : Char := Char.ofNat 123

/-- The closing brace character, written numerically. -/
def rbrace : Char := Char.ofNat 125

/-- The decimal digit character for d < 10. -/
def digitChar (d : Nat) : Char :=
  if d = 0 then '0' else if d = 1 then '1' else if d = 2 then '2' else if d = 3 then '3'
  else if d = 4 then '4' else if d = 5 then '5' else if d = 6 then '6' else if d = 7 then '7'
  else if d = 8 then '8' else '9'

/-- The lowercase hexadecimal digit character for d < 16. -/
def hexDigitChar (d : Nat) : Char :=
  if d < 10 then digitChar d
  else if d = 10 then 'a' else if d = 11 then 'b' else if d = 12 then 'c'
  else if d = 13 then 'd' else if d = 14 then 'e' else 'f'

/-- Four lowercase hex digits of n < 0x10000, as in Python's `\uXXXX`. -/
def hex4 (n : Nat) : List Char :=
  [hexDigitChar (n / 4096 % 16), hexDigitChar (n / 256 % 16),
   hexDigitChar (n / 16 % 16), hexDigitChar (n % 16)]

/-- Python json.dumps string escaping with ensure_ascii: quote, backslash and
the five shorthand control characters get two-character escapes, printable
ASCII passes through, and everything else becomes `\uXXXX` (a surrogate pair
above the basic plane). -/
def escapeChar (c : Char) : List Char :=
  if c = '"' then ['\\', '"']
  else if c = '\\' then ['\\', '\\']
  else if c = Char.ofNat 8 then ['\\', 'b']
  else if c = Char.ofNat 9 then ['\\', 't']
  else if c = Char.ofNat 10 then ['\\', 'n']
  else if c = Char.ofNat 12 then ['\\', 'f']
  else if c = Char.ofNat 13 then ['\\', 'r']
  else if 32 ≤ c.toNat ∧ c.toNat ≤ 126 then [c]
  else if c.toNat < 65536 then '\\' :: 'u' :: hex4 c.toNat
  else
    ('\\' :: 'u' :: hex4 (55296 + (c.toNat - 65536) / 1024)) ++
      ('\\' :: 'u' :: hex4 (56320 + (c.toNat - 65536) % 1024))

/-- Decimal digits of n, most significant first. -/
def natDigits (n : Nat) : List Char :=
  if h : n < 10 then [digitChar n]
  else natDigits (n / 10) ++ [digitChar (n % 10)]
termination_by n
decreasing_by omega

/-- Python's decimal rendering of an int. -/
def intChars : Int → List Char
  | Int.ofNat m => natDigits m
  | Int.negSucc m => '-' :: natDigits (m + 1)

/-- The escaped content of a JSON string followed by the closing quote. -/
def dumpStrChars : List Char → List Char
  | [] => ['"']
  | c :: cs => escapeChar c ++ dumpStrChars cs

mutual

/-- json.dumps with its default separators, as a character list. -/
def dumpJVal : JVal → List Char
  | JVal.null => ['n', 'u', 'l', 'l']
  | JVal.bool true => ['t', 'r', 'u', 'e']
  | JVal.bool false => ['f', 'a', 'l', 's', 'e']
  | JVal.int n => intChars n
  | JVal.str s => '"' :: dumpStrChars s.data
  | JVal.arr [] => ['[', ']']
  | JVal.arr (x :: xs) => '[' :: (dumpJVal x ++ dumpArrTail xs)
  | JVal.obj [] => [lbrace, rbrace]
  | JVal.obj ((k, v) :: kvs) =>
    lbrace :: ('"' :: dumpStrChars k.data ++ ':' :: ' ' :: (dumpJVal v ++ dumpObjTail kvs))

/-- The ", "-separated remaining array elements and the closing bracket. -/
def dumpArrTail : List JVal → List Char
  | [] => [']']
  | x :: xs => ',' :: ' ' :: (dumpJVal x ++ dumpArrTail xs)

/-- The ", "-separated remaining object members and the closing brace. -/
def dumpObjTail : List (String × JVal) → List Char
  | [] => [rbrace]
  | (k, v) :: kvs =>
    ',' :: ' ' :: ('"' :: dumpStrChars k.data ++ ':' :: ' ' :: (dumpJVal v ++ dumpObjTail kvs))

end


/-- JSON insignificant whitespace. -/
def isWsChar (c : Char) : Bool :=
  c = ' ' || c = Char.ofNat 9 || c = Char.ofNat 10 || c = Char.ofNat 13

/-- Skip leading whitespace. -/
def skipWs : List Char → List Char
  | [] => []
  | c :: cs => if isWsChar c then skipWs cs else c :: cs

/-- The value of a decimal digit character. -/
def digitVal? (c : Char) : Option Nat :=
  if 48 ≤ c.toNat ∧ c.toNat ≤ 57 then some (c.toNat - 48) else none

/-- The value of a hexadecimal digit character (either case). -/
def hexVal? (c : Char) : Option Nat :=
  if 48 ≤ c.toNat ∧ c.toNat ≤ 57 then some (c.toNat - 48)
  else if 97 ≤ c.toNat ∧ c.toNat ≤ 102 then some (c.toNat - 87)
  else if 65 ≤ c.toNat ∧ c.toNat ≤ 70 then some (c.toNat - 55)
  else none

/-- Consume a maximal run of decimal digits, accumulating their value. -/
def parseDigitsAux (acc : Nat) : List Char → Nat × List Char
  | [] => (acc, [])
  | c :: cs =>
    match digitVal? c with
    | some d => parseDigitsAux (acc * 10 + d) cs
    | none => (acc, c :: cs)

/-- Parse a JSON integer literal: an optional minus sign and at least one
digit. -/
def parseIntLit : List Char → Option (Int × List Char)
  | [] => none
  | c :: cs =>
    if c = '-' then
      match cs with
      | [] => none
      | d :: _ =>
        if (digitVal? d).isSome then
          let p := parseDigitsAux 0 cs
          some (-(p.1 : Int), p.2)
        else none
    else
      if (digitVal? c).isSome then
        let p := parseDigitsAux 0 (c :: cs)
        some ((p.1 : Int), p.2)
      else none

/-- Parse four hex digits. -/
def parseHex4 : List Char → Option (Nat × List Char)
  | a :: b :: c :: d :: rest =>
    match hexVal? a, hexVal? b, hexVal? c, hexVal? d with
    | some x, some y, some z, some w => some (((x * 16 + y) * 16 + z) * 16 + w, rest)
    | _, _, _, _ => none
  | _ => none

/-! Parsing the content of a JSON string after its opening quote.  Escapes
follow the JSON grammar; a `\uXXXX` high surrogate must be followed by a low
surrogate and the pair is recombined; lone surrogates are rejected.  The
reader is split into one function per grammar position. -/

mutual

/-- String content up to the closing quote, returning it and the rest. -/
def parseStrChars : List Char → Option (List Char × List Char)
  | [] => none
  | c :: cs =>
    if c = '"' then some ([], cs)
    else if c = '\\' then parseEscChar cs
    else (parseStrChars cs).map (fun p => (c :: p.1, p.2))

/-- The character after a backslash. -/
def parseEscChar : List Char → Option (List Char × List Char)
  | [] => none
  | e :: cs =>
    if e = '"' then (parseStrChars cs).map (fun p => ('"' :: p.1, p.2))
    else if e = '\\' then (parseStrChars cs).map (fun p => ('\\' :: p.1, p.2))
    else if e = '/' then (parseStrChars cs).map (fun p => ('/' :: p.1, p.2))
    else if e = 'b' then (parseStrChars cs).map (fun p => (Char.ofNat 8 :: p.1, p.2))
    else if e = 't' then (parseStrChars cs).map (fun p => (Char.ofNat 9 :: p.1, p.2))
    else if e = 'n' then (parseStrChars cs).map (fun p => (Char.ofNat 10 :: p.1, p.2))
    else if e = 'f' then (parseStrChars cs).map (fun p => (Char.ofNat 12 :: p.1, p.2))
    else if e = 'r' then (parseStrChars cs).map (fun p => (Char.ofNat 13 :: p.1, p.2))
    else if e = 'u' then parseUEsc cs
    else none

/-- The four hex digits of a `\uXXXX` escape, and the low surrogate of a
pair when they denote a high surrogate. -/
def parseUEsc : List Char → Option (List Char × List Char)
  | a :: b :: c :: d :: cs3 =>
    match hexVal? a, hexVal? b, hexVal? c, hexVal? d with
    | some x, some y, some z, some w =>
      let n := ((x * 16 + y) * 16 + z) * 16 + w
      if 55296 ≤ n ∧ n < 56320 then parseLowSurrogate n cs3
      else if 56320 ≤ n ∧ n < 57344 then none
      else (parseStrChars cs3).map (fun p => (Char.ofNat n :: p.1, p.2))
    | _, _, _, _ => none
  | _ => none

/-- The `\uXXXX` low surrogate completing a pair whose high half is hi. -/
def parseLowSurrogate (hi : Nat) : List Char → Option (List Char × List Char)
  | b1 :: u1 :: a :: b :: c :: d :: cs4 =>
    if b1 = '\\' ∧ u1 = 'u' then
      match hexVal? a, hexVal? b, hexVal? c, hexVal? d with
      | some x, some y, some z, some w =>
        let m := ((x * 16 + y) * 16 + z) * 16 + w
        if 56320 ≤ m ∧ m < 57344 then
          (parseStrChars cs4).map (fun p =>
            (Char.ofNat (65536 + (hi - 55296) * 1024 + (m - 56320)) :: p.1, p.2))
        else none
      | _, _, _, _ => none
    else none
  | _ => none

end

mutual

/-- Fuel-indexed recursive-descent parser for a JSON value (the grammar
json.dumps emits: null, booleans, integer numbers, strings, arrays,
objects). -/
def parseVal : Nat → List Char → Option (JVal × List Char)
  | 0, _ => none
  | fu + 1, s =>
    match skipWs s with
    | [] => none
    | c :: cs =>
      if c = 'n' then
        match cs with
        | 'u' :: 'l' :: 'l' :: rest => some (JVal.null, rest)
        | _ => none
      else if c = 't' then
        match cs with
        | 'r' :: 'u' :: 'e' :: rest => some (JVal.bool true, rest)
        | _ => none
      else if c = 'f' then
        match cs with
        | 'a' :: 'l' :: 's' :: 'e' :: rest => some (JVal.bool false, rest)
        | _ => none
      else if c = '"' then
        (parseStrChars cs).map (fun p => (JVal.str (String.mk p.1), p.2))
      else if c = '[' then
        match skipWs cs with
        | [] => none
        | d :: ds =>
          if d = ']' then some (JVal.arr [], ds)
          else
            match parseVal fu (d :: ds) with
            | some (v, r) => parseArrTail fu [v] r
            | none => none
      else if c = lbrace then
        match skipWs cs with
        | [] => none
        | d :: ds =>
          if d = rbrace then some (JVal.obj [], ds)
          else parseMember fu [] (d :: ds)
      else
        match parseIntLit (c :: cs) with
        | some (n, rest) => some (JVal.int n, rest)
        | none => none

/-- After an array element: a comma and the next element, or the close. -/
def parseArrTail : Nat → List JVal → List Char → Option (JVal × List Char)
  | 0, _, _ => none
  | fu + 1, acc, s =>
    match skipWs s with
    | ',' :: rest =>
      match parseVal fu rest with
      | some (v, r) => parseArrTail fu (acc ++ [v]) r
      | none => none
    | ']' :: rest => some (JVal.arr acc, rest)
    | _ => none

/-- One object member: a string key, a colon, a value. -/
def parseMember : Nat → List (String × JVal) → List Char → Option (JVal × List Char)
  | 0, _, _ => none
  | fu + 1, acc, s =>
    match skipWs s with
    | [] => none
    | c :: cs =>
      if c = '"' then
        match parseStrChars cs with
        | some (k, r1) =>
          match skipWs r1 with
          | ':' :: r2 =>
            match parseVal fu r2 with
            | some (v, r3) => parseObjTail fu (acc ++ [(String.mk k, v)]) r3
            | none => none
          | _ => none
        | none => none
      else none

/-- After an object member: a comma and the next member, or the close. -/
def parseObjTail : Nat → List (String × JVal) → List Char → Option (JVal × List Char)
  | 0, _, _ => none
  | fu + 1, acc, s =>
    match skipWs s with
    | [] => none
    | c :: cs =>
      if c = ',' then parseMember fu acc cs
      else if c = rbrace then some (JVal.obj acc, cs)
      else none

end

/-- Model of json.loads on the grammar dumps emits: parse one value and
require only whitespace after it. -/
def jsonLoads (s : List Char) : Option JVal :=
  match parseVal (s.length + 1) s with
  | some (v, rest) => if skipWs rest = [] then some v else none
  | none => none


/-- The standard base64 alphabet. -/
def base64Alphabet : List Char :=
  "ABCDEFGHIJKLMNOPQRSTUVWXYZabcdefghijklmnopqrstuvwxyz0123456789+/".data

/-- The base64 character of a sextet k < 64. -/
def b64chr (k : Nat) : Char := base64Alphabet.getD k '='

/-- The sextet of a base64 character. -/
def b64val? (c : Char) : Option Nat := base64Alphabet.indexOf? c

/-- base64.b64encode on a byte list, with `=` padding. -/
def b64encodeBytes : List Nat → List Char
  | [] => []
  | [a] => [b64chr (a / 4), b64chr (a % 4 * 16), '=', '=']
  | [a, b] => [b64chr (a / 4), b64chr (a % 4 * 16 + b / 16), b64chr (b % 16 * 4), '=']
  | a :: b :: c :: rest =>
    b64chr (a / 4) :: b64chr (a % 4 * 16 + b / 16) :: b64chr (b % 16 * 4 + c / 64) ::
      b64chr (c % 64) :: b64encodeBytes rest

/-- base64.b64decode on well-formed input: groups of four characters with
`=` padding allowed only in the final group. -/
def b64decodeBytes : List Char → Option (List Nat)
  | [] => some []
  | c1 :: c2 :: c3 :: c4 :: rest =>
    match b64val? c1, b64val? c2 with
    | some x, some y =>
      if c3 = '=' then
        if c4 = '=' ∧ rest = [] then
          if y % 16 = 0 then some [x * 4 + y / 16] else none
        else none
      else
        match b64val? c3 with
        | some z =>
          if c4 = '=' then
            if rest = [] then
              if z % 4 = 0 then some [x * 4 + y / 16, y % 16 * 16 + z / 4] else none
            else none
          else
            match b64val? c4, b64decodeBytes rest with
            | some w, some tl =>
              some ((x * 4 + y / 16) :: (y % 16 * 16 + z / 4) :: (z % 4 * 64 + w) :: tl)
            | _, _ => none
        | none => none
    | _, _ => none
  | _ => none

/-- UTF-8 encoding of one character (1 to 4 bytes). -/
def utf8EncodeChar (c : Char) : List Nat :=
  if c.toNat < 128 then [c.toNat]
  else if c.toNat < 2048 then [192 + c.toNat / 64, 128 + c.toNat % 64]
  else if c.toNat < 65536 then
    [224 + c.toNat / 4096, 128 + c.toNat / 64 % 64, 128 + c.toNat % 64]
  else
    [240 + c.toNat / 262144, 128 + c.toNat / 4096 % 64, 128 + c.toNat / 64 % 64,
      128 + c.toNat % 64]

/-- UTF-8 encoding of a character list. -/
def utf8Encode : List Char → List Nat
  | [] => []
  | c :: cs => utf8EncodeChar c ++ utf8Encode cs

/-- Whether a code point is a valid non-surrogate scalar value. -/
def validCp (n : Nat) : Bool := n < 55296 || (57344 ≤ n && n < 1114112)

/-! UTF-8 decoding of a byte list, split into one function per sequence
length; continuation bytes must be in [128, 192) and the decoded code point
must be in the canonical range for its length and not a surrogate. -/

mutual

/-- UTF-8 decoding of a byte list. -/
def utf8Decode : List Nat → Option (List Char)
  | [] => some []
  | b :: bs =>
    if b < 128 then (utf8Decode bs).map (fun cs => Char.ofNat b :: cs)
    else if b < 192 then none
    else if b < 224 then utf8Cont1 b bs
    else if b < 240 then utf8Cont2 b bs
    else if b < 248 then utf8Cont3 b bs
    else none

/-- The continuation byte of a 2-byte sequence. -/
def utf8Cont1 (b : Nat) : List Nat → Option (List Char)
  | b2 :: rest =>
    if 128 ≤ b2 ∧ b2 < 192 then
      if 128 ≤ (b - 192) * 64 + (b2 - 128) ∧ validCp ((b - 192) * 64 + (b2 - 128)) then
        (utf8Decode rest).map (fun cs => Char.ofNat ((b - 192) * 64 + (b2 - 128)) :: cs)
      else none
    else none
  | _ => none

/-- The continuation bytes of a 3-byte sequence. -/
def utf8Cont2 (b : Nat) : List Nat → Option (List Char)
  | b2 :: b3 :: rest =>
    if 128 ≤ b2 ∧ b2 < 192 ∧ 128 ≤ b3 ∧ b3 < 192 then
      if 2048 ≤ (b - 224) * 4096 + (b2 - 128) * 64 + (b3 - 128)
          ∧ validCp ((b - 224) * 4096 + (b2 - 128) * 64 + (b3 - 128)) then
        (utf8Decode rest).map
          (fun cs => Char.ofNat ((b - 224) * 4096 + (b2 - 128) * 64 + (b3 - 128)) :: cs)
      else none
    else none
  | _ => none

/-- The continuation bytes of a 4-byte sequence. -/
def utf8Cont3 (b : Nat) : List Nat → Option (List Char)
  | b2 :: b3 :: b4 :: rest =>
    if 128 ≤ b2 ∧ b2 < 192 ∧ 128 ≤ b3 ∧ b3 < 192 ∧ 128 ≤ b4 ∧ b4 < 192 then
      if 65536 ≤ (b - 240) * 262144 + (b2 - 128) * 4096 + (b3 - 128) * 64 + (b4 - 128)
          ∧ validCp ((b - 240) * 262144 + (b2 - 128) * 4096 + (b3 - 128) * 64 + (b4 - 128)) then
        (utf8Decode rest).map
          (fun cs => Char.ofNat
            ((b - 240) * 262144 + (b2 - 128) * 4096 + (b3 - 128) * 64 + (b4 - 128)) :: cs)
      else none
    else none
  | _ => none

end

/-! # ore_id_utils: action encoding and the signing request -/

/-- Embedding of `ore_id_utils.get_action_params`:
`base64.b64encode(json.dumps(action_dict).encode('utf-8')).decode('utf-8')`. -/
def get_action_params (action_dict : JVal) : List Char :=
  b64encodeBytes (utf8Encode (dumpJVal action_dict))

/-- The action dictionary built by `ore_id_utils.ore_id_asa_action`: both
`from` and `to` are the sender address. -/
def oreActionDict (sender_address : String) (asa_id amount : Nat) : JVal :=
  JVal.obj [("from", JVal.str sender_address), ("to", JVal.str sender_address),
    ("assetIndex", JVal.int asa_id), ("amount", JVal.int amount),
    ("type", JVal.str "axfer")]

/-- Embedding of `ore_id_utils.ore_id_asa_action`: dumps the action dict and
base64-encodes its UTF-8 bytes (the source inlines the same expression as
get_action_params). -/
def ore_id_asa_action (sender_address : String) (asa_id : Nat) (amount : Nat := 0) :
    List Char :=
  b64encodeBytes (utf8Encode (dumpJVal (oreActionDict sender_address asa_id amount)))

/-- The inverse pipeline `json.loads(base64.b64decode(encoded))`
(b64decode yields bytes, which json.loads decodes as UTF-8). -/
def decodeActionParams (s : List Char) : Option JVal :=
  match b64decodeBytes s with
  | none => none
  | some bytes =>
    match utf8Decode bytes with
    | none => none
    | some chars => jsonLoads chars

/-- Python dict lookup on a parsed JSON object. -/
def JVal.lookup? : JVal → String → Option JVal
  | JVal.obj kvs, k => (kvs.find? (fun p => p.1 == k)).map Prod.snd
  | _, _ => none

/-- The fields of the JSON payload POSTed to /api/transaction/sign by
ore_id_asa_sign_transaction. -/
structure SignRequest where
  account : String
  broadcast : Bool
  chain_account : String
  chain_network : String
  transaction : List Char
  user_password : String
deriving DecidableEq

/-- The response-interpretation tail of ore_id_asa_sign_transaction:
status 200 logs success; otherwise the raw text is logged as a warning and
the truthy `error` and `message` body fields are logged as errors.  The
`Except` result represents whether an exception escapes to the caller; no
branch produces one. -/
def oreSignHandleResponse (res : OreResponse) : Except String (List OreLog) :=
  if res.statusCode == 200 then Except.ok [OreLog.infoSuccess res.content]
  else
    let logs := [OreLog.warnIssue res.text]
    let logs :=
      if truthyStr res.error then logs ++ [OreLog.errorField (res.error.getD "")] else logs
    let logs :=
      if truthyStr res.message then logs ++ [OreLog.errorField (res.message.getD "")] else logs
    Except.ok logs

/-- Embedding of `ore_id_utils.ore_id_asa_sign_transaction`: builds the
encoded self-transfer intent for chain_account, POSTs the signing payload
(the HTTP exchange is the oracle `http`), and interprets the response.  The
chain_action_type argument is unused by the source after its compose-action
path was commented out. -/
def ore_id_asa_sign_transaction (http : SignRequest → OreResponse)
    (account password chain_action_type : String) (asa_id : Nat) (amount : Nat := 0)
    (broadcast : Bool := true) (chain_account : String := "")
    (chain_network : String := "") : SignRequest × Except String (List OreLog) :=
  let txn := ore_id_asa_action chain_account asa_id amount
  let req : SignRequest := ⟨account, broadcast, chain_account, chain_network, txn, password⟩
  let res := http req
  (req, oreSignHandleResponse res)

/-- The HTTP 400 response `{"errorMessage": "x"}` of the C5 scenario. -/
def c5resp : OreResponse :=
  { statusCode := 400, error := none, message := none, errorMessage := some "x",
    content := "body", text := "err" }


/-- The characters that can follow a complete JSON value inside dumps output
(or the end of input); a number literal is never followed by more digits. -/
def isDelim : List Char → Bool
  | [] => true
  | c :: _ => c = ',' || c = ']' || c = rbrace


mutual

/-- Fuel needed by the value parser to read a dumped value. -/
def jweight : JVal → Nat
  | JVal.null => 1
  | JVal.bool _ => 1
  | JVal.int _ => 1
  | JVal.str _ => 1
  | JVal.arr xs => 1 + jweightArr xs
  | JVal.obj kvs => 1 + jweightObj kvs

/-- Fuel needed to read the remaining elements of an array. -/
def jweightArr : List JVal → Nat
  | [] => 0
  | x :: xs => 1 + jweight x + jweightArr xs

/-- Fuel needed to read the remaining members of an object. -/
def jweightObj : List (String × JVal) → Nat
  | [] => 0
  | (_, v) :: kvs => 1 + jweight v + jweightObj kvs

end


/-- Whether an enrichment event is a metadata lookup. -/
def MetaEvent.isLookup : MetaEvent → Bool
  | MetaEvent.lookup _ _ => true
  | _ => false


/-- The some-assets branch of the detailed listing, factored out for proofs. -/
def detailsBranch (lk : Nat → Nat → MetaOutcome) (inc : Bool) (amount : Nat)
    (asset_dict : List AssetHolding) :
    Except String ((FetchOut DetailedEntry × Bool) × List MetaEvent) :=
  let non_zero := if inc then asset_dict else asset_dict.filter (fun v => v.amount != 0)
  (enrichAll lk 0 non_zero).bind (fun pr =>
    if pr.2.all (fun e => e.name.isSome) then
      Except.ok ((FetchOut.success amount (toString non_zero.length ++ " asset found.")
        (pr.2.map (fun e => ⟨e.holding.assetId, e.name.getD "", e.holding.amount⟩)), true), pr.1)
    else
      Except.ok ((FetchOut.failure "Required asset info error." (some amount), false), pr.1))

/-! # End of definitions; theorems about the claims follow. -/

/-! ## Properties of the confirmation poller -/

/-- Whenever the polling loop returns, the returned record's confirmed round is
positive (the loop exits only on the truthy-and-positive condition). -/
theorem waitForConfirmationAux_confirmed (poll : Nat → Option Nat) :
    ∀ fuel i cr k, waitForConfirmationAux poll fuel i = some (cr, k) →
      confirmedPositive cr = true := by
  intro fuel
  induction fuel with
  | zero => intro i cr k h; simp [waitForConfirmationAux] at h
  | succ fuel ih =>
    intro i cr k h
    unfold waitForConfirmationAux at h
    by_cases hc : confirmedPositive (poll i) = true
    · simp only [hc, if_true, Option.some.injEq, Prod.mk.injEq] at h
      rw [← h.1]; exact hc
    · simp only [hc, if_false, Bool.false_eq_true] at h
      exact ih _ _ _ h

/-- When the first `N` queries are unconfirmed and query `N` reports a positive
round, the loop starting at query `i ≤ N` returns that record after its
`N + 1`-st query, given enough fuel. -/
theorem waitForConfirmationAux_count (poll : Nat → Option Nat) (N r : Nat)
    (hN : ∀ j, j < N → confirmedPositive (poll j) = false)
    (hconf : poll N = some r) (hr : 0 < r) :
    ∀ fuel i, i ≤ N → N - i < fuel →
      waitForConfirmationAux poll fuel i = some (some r, N + 1) := by
  intro fuel
  induction fuel with
  | zero => intro i _ h2; omega
  | succ fuel ih =>
    intro i hiN hfuel
    unfold waitForConfirmationAux
    by_cases hi : i = N
    · subst hi
      simp [hconf, confirmedPositive, hr]
    · have hfalse : confirmedPositive (poll i) = false := hN i (by omega)
      simp only [hfalse, Bool.false_eq_true, if_false]
      exact ih (i + 1) (by omega) (by omega)

/-- C2: wait_for_confirmation returns only a record with confirmed-round > 0,
and for a mock client whose first N pending-transaction queries are
unconfirmed and whose next query reports a positive round r, it returns that
record having made exactly N + 1 pending-transaction status queries. -/
theorem wait_for_confirmation_polls_until_confirmed :
    (∀ (poll : Nat → Option Nat) (fuel : Nat) (cr : Option Nat) (k : Nat),
        wait_for_confirmation poll fuel = some (cr, k) →
          ∃ n, cr = some n ∧ 0 < n)
    ∧ ∀ (poll : Nat → Option Nat) (N r fuel : Nat),
        (∀ j, j < N → confirmedPositive (poll j) = false) →
        poll N = some r → 0 < r → N < fuel →
        wait_for_confirmation poll fuel = some (some r, N + 1) := by
  constructor
  · intro poll fuel cr k h
    have hc := waitForConfirmationAux_confirmed poll fuel 0 cr k h
    cases cr with
    | none => simp [confirmedPositive] at hc
    | some n => exact ⟨n, rfl, by simpa [confirmedPositive] using hc⟩
  · intro poll N r fuel hN hconf hr hfuel
    exact waitForConfirmationAux_count poll N r hN hconf hr fuel 0 (by omega) (by omega)

/-- Witness for C2: a mock client unconfirmed for 2 queries and confirming
with round 7 at the third query yields exactly 3 queries. -/
theorem wait_for_confirmation_polls_until_confirmed_witness :
    wait_for_confirmation (fun i => if i < 2 then none else some 7) 5 = some (some 7, 3) :=
  wait_for_confirmation_polls_until_confirmed.2 (fun i => if i < 2 then none else some 7)
    2 7 5 (by decide) (by norm_num) (by norm_num) (by norm_num)

/-- The polling loop never returns when no query ever reports a positive
confirmed round. -/
theorem waitForConfirmationAux_diverges (poll : Nat → Option Nat)
    (h : ∀ i, confirmedPositive (poll i) = false) :
    ∀ fuel i, waitForConfirmationAux poll fuel i = none := by
  intro fuel
  induction fuel with
  | zero => intro i; rfl
  | succ fuel ih =>
    intro i
    unfold waitForConfirmationAux
    simp only [h i, Bool.false_eq_true, if_false]
    exact ih (i + 1)

/-- C8: wait_for_confirmation has no timeout: for a transaction whose
confirmed round never becomes positive, the loop never terminates — in the
fuel embedding, it fails to return at every fuel. -/
theorem wait_for_confirmation_no_timeout (poll : Nat → Option Nat)
    (h : ∀ i, confirmedPositive (poll i) = false) (fuel : Nat) :
    wait_for_confirmation poll fuel = none :=
  waitForConfirmationAux_diverges poll h fuel 0

/-- Witness for C8: a client that always reports the field absent. -/
theorem wait_for_confirmation_no_timeout_witness :
    wait_for_confirmation (fun _ => none) 5 = none :=
  wait_for_confirmation_no_timeout (fun _ => none) (fun _ => rfl) 5

/-! ## Properties of the funding-and-transfer orchestrator -/

/-- C3: with the queried balance below the 200000 threshold and auto-funding
disabled, the orchestrator returns the remediation failure result and submits
no transaction at all. -/
theorem fund_disabled_returns_failure (c : AlgodClient) (creatorSk receiver : String)
    (asaAmount asaId fundAmount : Nat)
    (hlow : c.accountAmount.getD 0 < 200000) :
    fund_account_and_transfer_asa c creatorSk receiver asaAmount asaId false fundAmount
      = ((noInitialFundMsg receiver, false), []) := by
  have hb : belowThreshold c.accountAmount = true := by
    cases h : c.accountAmount with
    | none => rfl
    | some n =>
      rw [h] at hlow
      simp only [belowThreshold, Option.getD_some] at hlow ⊢
      simp only [Bool.or_eq_true, beq_iff_eq, decide_eq_true_eq]
      omega
  unfold fund_account_and_transfer_asa
  simp [hb]

/-- Witness for C3 at a concrete client with balance 100. -/
theorem fund_disabled_returns_failure_witness :
    fund_account_and_transfer_asa
        { addrOfSk := fun _ => "CREATOR", accountAmount := some 100,
          send := fun _ => some "TX" } "SK" "RECV" 5 99 false 200000
      = ((noInitialFundMsg "RECV", false), []) :=
  fund_disabled_returns_failure
    { addrOfSk := fun _ => "CREATOR", accountAmount := some 100,
      send := fun _ => some "TX" } "SK" "RECV" 5 99 200000 (by norm_num)

/-- C4: with the queried balance at least the 200000 threshold, the funding
step is skipped for every value of the fund_account flag: the trace consists
of exactly the asset-transfer submission, with no funding payment. -/
theorem funded_receiver_skips_funding (c : AlgodClient) (creatorSk receiver : String)
    (asaAmount asaId : Nat) (fundAccount : Bool) (fundAmount : Nat) (n : Nat)
    (hamt : c.accountAmount = some n) (hge : 200000 ≤ n) :
    (fund_account_and_transfer_asa c creatorSk receiver asaAmount asaId
        fundAccount fundAmount).2
      = [⟨Txn.assetXfer (c.addrOfSk creatorSk) receiver asaAmount asaId,
          (c.send (Txn.assetXfer (c.addrOfSk creatorSk) receiver asaAmount asaId)).isSome⟩] := by
  have hb : belowThreshold c.accountAmount = false := by
    rw [hamt]
    simp only [belowThreshold, Bool.or_eq_false_iff, beq_eq_false_iff_ne, ne_eq,
      decide_eq_false_iff_not, not_lt]
    omega
  unfold fund_account_and_transfer_asa
  simp only [hb, Bool.false_and, Bool.if_false_left]
  cases hs : c.send (Txn.assetXfer (c.addrOfSk creatorSk) receiver asaAmount asaId) <;>
    simp [hs]

/-- Witness for C4 at a concrete client with balance 300000. -/
theorem funded_receiver_skips_funding_witness :
    (fund_account_and_transfer_asa
        { addrOfSk := fun _ => "CREATOR", accountAmount := some 300000,
          send := fun _ => some "TX" } "SK" "RECV" 5 99 true 200000).2
      = [⟨Txn.assetXfer "CREATOR" "RECV" 5 99, true⟩] :=
  funded_receiver_skips_funding
    { addrOfSk := fun _ => "CREATOR", accountAmount := some 300000,
      send := fun _ => some "TX" } "SK" "RECV" 5 99 true 200000 300000 rfl (by norm_num)

/-- C1 as stated is false: under `c1Client` the asset transfer is submitted on
a path where the observed balance is below 200000 and no funding payment was
successfully confirmed (the attempted funding payment failed, and the
orchestrator ignores that failure). -/
theorem fund_preflight_counterexample :
    (∃ a ∈ (fund_account_and_transfer_asa c1Client "SK" "RECV" 5 99 true 200000).2,
        a.isPayment = false)
    ∧ c1Client.accountAmount.getD 0 < 200000
    ∧ ∀ a ∈ (fund_account_and_transfer_asa c1Client "SK" "RECV" 5 99 true 200000).2,
        a.isPayment = true → a.ok = false := by
  decide

/-- C1 amended: on every path that submits the asset transfer, either the
receiver's balance was observed to be at least 200000, or auto-funding was
enabled and a funding payment of fund_amount was submitted (first in the
trace, hence before the transfer) — without any verification that this
payment succeeded or that it brought the balance up to the threshold. -/
theorem fund_preflight_amended (c : AlgodClient) (creatorSk receiver : String)
    (asaAmount asaId : Nat) (fundAccount : Bool) (fundAmount : Nat)
    (h : ∃ a ∈ (fund_account_and_transfer_asa c creatorSk receiver asaAmount asaId
          fundAccount fundAmount).2, a.isPayment = false) :
    200000 ≤ c.accountAmount.getD 0
    ∨ (fundAccount = true ∧
        ∃ ok rest,
          (fund_account_and_transfer_asa c creatorSk receiver asaAmount asaId
              fundAccount fundAmount).2
            = ⟨Txn.payment (c.addrOfSk creatorSk) receiver fundAmount, ok⟩ :: rest) := by
  by_cases hb : belowThreshold c.accountAmount = true
  · cases hf : fundAccount with
    | false =>
      exfalso
      rw [hf] at h
      unfold fund_account_and_transfer_asa at h
      simp [hb] at h
    | true =>
      refine Or.inr ⟨rfl, ?_⟩
      unfold fund_account_and_transfer_asa payment_transaction
      simp only [hb, Bool.not_true, Bool.and_false, Bool.false_eq_true, if_false, if_true]
      cases c.send (Txn.payment (c.addrOfSk creatorSk) receiver fundAmount) with
      | none =>
        cases c.send (Txn.assetXfer (c.addrOfSk creatorSk) receiver asaAmount asaId) <;>
          exact ⟨false, _, rfl⟩
      | some txid =>
        cases c.send (Txn.assetXfer (c.addrOfSk creatorSk) receiver asaAmount asaId) <;>
          exact ⟨true, _, rfl⟩
  · left
    cases hc : c.accountAmount with
    | none => rw [hc] at hb; exact absurd rfl hb
    | some n =>
      rw [hc] at hb
      simp only [belowThreshold, Bool.or_eq_true, beq_iff_eq, decide_eq_true_eq, not_or] at hb
      push_neg at hb
      simpa using hb.2

/-- Witness for the amended C1, at `c1Client`: the transfer is submitted and
the trace begins with the attempted funding payment. -/
theorem fund_preflight_amended_witness :
    (∃ a ∈ (fund_account_and_transfer_asa c1Client "SK" "RECV" 5 99 true 200000).2,
        a.isPayment = false)
    ∧ (200000 ≤ c1Client.accountAmount.getD 0
        ∨ (true = true ∧
            ∃ ok rest,
              (fund_account_and_transfer_asa c1Client "SK" "RECV" 5 99 true 200000).2
                = ⟨Txn.payment (c1Client.addrOfSk "SK") "RECV" 200000, ok⟩ :: rest)) :=
  ⟨by decide, fund_preflight_amended c1Client "SK" "RECV" 5 99 true 200000 (by decide)⟩

/-- C6: for a funded account holding assets [(1,0), (2,5)] and
include_zero_assets = False, fetch_asset_info returns success with exactly the
single entry (asset_id 2, asset_amount 5); in general, with
include_zero_assets = False the result list is the zero-amount-filtered asset
list, so no zero-balance holding ever appears in it. -/
theorem fetch_asset_info_filters_zero_assets (address : String) (n : Nat) (hn : n ≠ 0) :
    (fetch_asset_info (IndexerResult.ok ⟨n, some [⟨1, 0⟩, ⟨2, 5⟩]⟩) address false
      = (FetchOut.success n "1 asset found." [⟨2, 5⟩], true))
    ∧ ∀ (assets : List AssetHolding),
        (fetch_asset_info (IndexerResult.ok ⟨n, some assets⟩) address false).1
          = FetchOut.success n
              (toString (assets.filter (fun v => v.amount != 0)).length ++ " asset found.")
              ((assets.filter (fun v => v.amount != 0)).map (fun a => ⟨a.assetId, a.amount⟩))
    ∧ ∀ e ∈ ((fetch_asset_info (IndexerResult.ok ⟨n, some assets⟩) address false).1
          |> fun out => match out with
              | FetchOut.success _ _ result => result
              | FetchOut.failure _ _ => []),
        e.asset_amount ≠ 0 := by
  have hne : (n == 0) = false := by simpa using hn
  refine ⟨?_, ?_⟩
  · unfold fetch_asset_info
    simp only [hne, Bool.false_eq_true, if_false, List.filter, List.map]
    rfl
  · intro assets
    constructor
    · unfold fetch_asset_info
      simp [hne]
    · intro e he
      unfold fetch_asset_info at he
      simp only [hne, Bool.false_eq_true, if_false] at he
      simp only [List.mem_map, List.mem_filter] at he
      obtain ⟨a, ⟨_, ha⟩, rfl⟩ := he
      simpa using ha

/-- Witness for C6 at amount 42. -/
theorem fetch_asset_info_filters_zero_assets_witness :
    (fetch_asset_info (IndexerResult.ok ⟨42, some [⟨1, 0⟩, ⟨2, 5⟩]⟩) "ADDR" false
      = (FetchOut.success 42 "1 asset found." [⟨2, 5⟩], true))
    ∧ ∀ (assets : List AssetHolding),
        (fetch_asset_info (IndexerResult.ok ⟨42, some assets⟩) "ADDR" false).1
          = FetchOut.success 42
              (toString (assets.filter (fun v => v.amount != 0)).length ++ " asset found.")
              ((assets.filter (fun v => v.amount != 0)).map (fun a => ⟨a.assetId, a.amount⟩))
    ∧ ∀ e ∈ ((fetch_asset_info (IndexerResult.ok ⟨42, some assets⟩) "ADDR" false).1
          |> fun out => match out with
              | FetchOut.success _ _ result => result
              | FetchOut.failure _ _ => []),
        e.asset_amount ≠ 0 :=
  fetch_asset_info_filters_zero_assets "ADDR" 42 (by norm_num)

/-! ## JSON roundtrip: helper lemmas -/

/-- Every character is a scalar value outside the surrogate range. -/
theorem charValidRange (c : Char) :
    c.toNat < 55296 ∨ (57344 ≤ c.toNat ∧ c.toNat < 1114112) := by
  have h := c.valid
  unfold UInt32.isValidChar Nat.isValidChar at h
  have he : c.toNat = c.val.toNat := rfl
  omega

/-- Parsing a decimal digit character recovers its value. -/
theorem digitVal?_digitChar : ∀ d, d < 10 → digitVal? (digitChar d) = some d := by decide

/-- Parsing a lowercase hex digit character recovers its value. -/
theorem hexVal?_hexDigitChar : ∀ d, d < 16 → hexVal? (hexDigitChar d) = some d := by decide

/-- The decimal rendering of a natural starts with a digit character. -/
theorem natDigits_shape (n : Nat) : ∃ d t, d < 10 ∧ natDigits n = digitChar d :: t := by
  induction n using Nat.strong_induction_on with
  | _ n ih =>
    rw [natDigits]
    by_cases h : n < 10
    · exact ⟨n, [], h, by simp [h]⟩
    · obtain ⟨d, t, hd, ht⟩ := ih (n / 10) (by omega)
      exact ⟨d, t ++ [digitChar (n % 10)], hd, by simp [h, ht]⟩

/-- Consuming the rendered digits of n accumulates its value. -/
theorem parseDigitsAux_append (n : Nat) : ∀ acc rest,
    parseDigitsAux acc (natDigits n ++ rest)
      = parseDigitsAux (acc * 10 ^ (natDigits n).length + n) rest := by
  induction n using Nat.strong_induction_on with
  | _ n ih =>
    intro acc rest
    rw [natDigits]
    by_cases h : n < 10
    · simp only [h, dite_true, List.cons_append, List.nil_append, List.length_cons,
        List.length_nil, pow_one, parseDigitsAux, digitVal?_digitChar n h]
      norm_num
    · simp only [h, dite_false, List.append_assoc, List.cons_append, List.nil_append]
      rw [ih (n / 10) (by omega)]
      have hm : n % 10 < 10 := by omega
      simp only [parseDigitsAux, digitVal?_digitChar _ hm]
      have hlen : (natDigits (n / 10) ++ [digitChar (n % 10)]).length
          = (natDigits (n / 10)).length + 1 := by simp
      rw [hlen]
      congr 1
      have hdm : 10 * (n / 10) + n % 10 = n := Nat.div_add_mod n 10
      calc (acc * 10 ^ (natDigits (n / 10)).length + n / 10) * 10 + n % 10
          = acc * (10 ^ (natDigits (n / 10)).length * 10)
            + (10 * (n / 10) + n % 10) := by ring
        _ = acc * 10 ^ ((natDigits (n / 10)).length + 1) + n := by
            rw [hdm, pow_succ]

/-- A digit run stops at a delimiter. -/
theorem parseDigitsAux_stop (acc : Nat) (rest : List Char) (h : isDelim rest = true) :
    parseDigitsAux acc rest = (acc, rest) := by
  cases rest with
  | nil => rfl
  | cons c cs =>
    simp only [isDelim, Bool.or_eq_true, decide_eq_true_eq] at h
    have hc : digitVal? c = none := by
      rcases h with (h | h) | h <;> subst h <;> decide
    simp [parseDigitsAux, hc]

/-- Parsing the decimal rendering of an integer recovers it. -/
theorem parseIntLit_intChars (n : Int) (rest : List Char) (h : isDelim rest = true) :
    parseIntLit (intChars n ++ rest) = some (n, rest) := by
  have hdash : ∀ d, d < 10 → ¬(digitChar d = '-') := by decide
  cases n with
  | ofNat m =>
    obtain ⟨d, t, hd, ht⟩ := natDigits_shape m
    simp only [intChars, ht, List.cons_append, parseIntLit]
    rw [if_neg (hdash d hd)]
    simp only [digitVal?_digitChar d hd, Option.isSome_some, if_true]
    rw [← List.cons_append, ← ht, parseDigitsAux_append, Nat.zero_mul, Nat.zero_add,
      parseDigitsAux_stop _ _ h]
    rfl
  | negSucc m =>
    obtain ⟨d, t, hd, ht⟩ := natDigits_shape (m + 1)
    simp only [intChars, List.cons_append, parseIntLit]
    simp only [if_true]
    rw [ht]
    simp only [List.cons_append, digitVal?_digitChar d hd, Option.isSome_some, if_true]
    rw [← List.cons_append, ← ht, parseDigitsAux_append, Nat.zero_mul, Nat.zero_add,
      parseDigitsAux_stop _ _ h]
    simp [Int.negSucc_eq]

/-- Parsing four rendered hex digits recovers the value. -/
theorem parseHex4_hex4 (n : Nat) (hn : n < 65536) (rest : List Char) :
    parseHex4 (hex4 n ++ rest) = some (n, rest) := by
  have h1 : n / 4096 % 16 < 16 := Nat.mod_lt _ (by norm_num)
  have h2 : n / 256 % 16 < 16 := Nat.mod_lt _ (by norm_num)
  have h3 : n / 16 % 16 < 16 := Nat.mod_lt _ (by norm_num)
  have h4 : n % 16 < 16 := Nat.mod_lt _ (by norm_num)
  simp only [hex4, List.cons_append, List.nil_append, parseHex4,
    hexVal?_hexDigitChar _ h1, hexVal?_hexDigitChar _ h2, hexVal?_hexDigitChar _ h3,
    hexVal?_hexDigitChar _ h4]
  have he : (n / 4096 % 16 * 16 + n / 256 % 16) * 16 * 16 + n / 16 % 16 * 16 + n % 16 = n := by
    omega
  congr 1
  rw [Prod.mk.injEq]
  constructor
  · omega
  · rfl


/-- Reading a `\uXXXX` escape of a basic-plane non-surrogate code point. -/
theorem parseUEsc_hex4 (n : Nat) (hv : n < 55296 ∨ (57344 ≤ n ∧ n < 65536))
    (tail : List Char) :
    parseUEsc (hex4 n ++ tail)
      = (parseStrChars tail).map (fun p => (Char.ofNat n :: p.1, p.2)) := by
  have h1 : n / 4096 % 16 < 16 := Nat.mod_lt _ (by norm_num)
  have h2 : n / 256 % 16 < 16 := Nat.mod_lt _ (by norm_num)
  have h3 : n / 16 % 16 < 16 := Nat.mod_lt _ (by norm_num)
  have h4 : n % 16 < 16 := Nat.mod_lt _ (by norm_num)
  simp only [hex4, List.cons_append, List.nil_append, parseUEsc,
    hexVal?_hexDigitChar _ h1, hexVal?_hexDigitChar _ h2, hexVal?_hexDigitChar _ h3,
    hexVal?_hexDigitChar _ h4]
  have hval : ((n / 4096 % 16 * 16 + n / 256 % 16) * 16 + n / 16 % 16) * 16 + n % 16 = n := by
    omega
  rw [hval]
  have hns1 : ¬(55296 ≤ n ∧ n < 56320) := by omega
  have hns2 : ¬(56320 ≤ n ∧ n < 57344) := by omega
  rw [if_neg hns1, if_neg hns2]

/-- Reading a surrogate-pair escape: a high surrogate A followed by a low
surrogate B decodes to the recombined code point. -/
theorem parseUEsc_hex4_pair (A B : Nat) (hA1 : 55296 ≤ A) (hA2 : A < 56320)
    (hB1 : 56320 ≤ B) (hB2 : B < 57344) (tail : List Char) :
    parseUEsc (hex4 A ++ ('\\' :: 'u' :: (hex4 B ++ tail)))
      = (parseStrChars tail).map
          (fun p => (Char.ofNat (65536 + (A - 55296) * 1024 + (B - 56320)) :: p.1, p.2)) := by
  have ha1 : A / 4096 % 16 < 16 := Nat.mod_lt _ (by norm_num)
  have ha2 : A / 256 % 16 < 16 := Nat.mod_lt _ (by norm_num)
  have ha3 : A / 16 % 16 < 16 := Nat.mod_lt _ (by norm_num)
  have ha4 : A % 16 < 16 := Nat.mod_lt _ (by norm_num)
  have hb1 : B / 4096 % 16 < 16 := Nat.mod_lt _ (by norm_num)
  have hb2 : B / 256 % 16 < 16 := Nat.mod_lt _ (by norm_num)
  have hb3 : B / 16 % 16 < 16 := Nat.mod_lt _ (by norm_num)
  have hb4 : B % 16 < 16 := Nat.mod_lt _ (by norm_num)
  simp only [hex4, List.cons_append, List.nil_append, parseUEsc,
    hexVal?_hexDigitChar _ ha1, hexVal?_hexDigitChar _ ha2, hexVal?_hexDigitChar _ ha3,
    hexVal?_hexDigitChar _ ha4]
  have hvala : ((A / 4096 % 16 * 16 + A / 256 % 16) * 16 + A / 16 % 16) * 16 + A % 16 = A := by
    omega
  rw [hvala]
  rw [if_pos (And.intro hA1 hA2)]
  simp only [parseLowSurrogate,
    hexVal?_hexDigitChar _ hb1, hexVal?_hexDigitChar _ hb2, hexVal?_hexDigitChar _ hb3,
    hexVal?_hexDigitChar _ hb4]
  rw [if_pos (And.intro trivial trivial)]
  have hvalb : ((B / 4096 % 16 * 16 + B / 256 % 16) * 16 + B / 16 % 16) * 16 + B % 16 = B := by
    omega
  rw [hvalb]
  rw [if_pos (And.intro hB1 hB2)]

/-- One-step unfolding of the string reader on a cons cell. -/
theorem parseStrChars_cons (c : Char) (cs : List Char) :
    parseStrChars (c :: cs)
      = if c = '"' then some ([], cs)
        else if c = '\\' then parseEscChar cs
        else (parseStrChars cs).map (fun p => (c :: p.1, p.2)) := rfl

/-- One-step unfolding of the escape reader on a cons cell. -/
theorem parseEscChar_cons (e : Char) (cs : List Char) :
    parseEscChar (e :: cs)
      = if e = '"' then (parseStrChars cs).map (fun p => ('"' :: p.1, p.2))
        else if e = '\\' then (parseStrChars cs).map (fun p => ('\\' :: p.1, p.2))
        else if e = '/' then (parseStrChars cs).map (fun p => ('/' :: p.1, p.2))
        else if e = 'b' then (parseStrChars cs).map (fun p => (Char.ofNat 8 :: p.1, p.2))
        else if e = 't' then (parseStrChars cs).map (fun p => (Char.ofNat 9 :: p.1, p.2))
        else if e = 'n' then (parseStrChars cs).map (fun p => (Char.ofNat 10 :: p.1, p.2))
        else if e = 'f' then (parseStrChars cs).map (fun p => (Char.ofNat 12 :: p.1, p.2))
        else if e = 'r' then (parseStrChars cs).map (fun p => (Char.ofNat 13 :: p.1, p.2))
        else if e = 'u' then parseUEsc cs
        else none := rfl

/-- Reading one escaped character gives back that character. -/
theorem parseStrChars_escape (c : Char) (tail : List Char) :
    parseStrChars (escapeChar c ++ tail)
      = (parseStrChars tail).map (fun p => (c :: p.1, p.2)) := by
  by_cases h1 : c = '"'
  · subst h1; rfl
  by_cases h2 : c = '\\'
  · subst h2; rfl
  by_cases h3 : c = Char.ofNat 8
  · subst h3; rfl
  by_cases h4 : c = Char.ofNat 9
  · subst h4; rfl
  by_cases h5 : c = Char.ofNat 10
  · subst h5; rfl
  by_cases h6 : c = Char.ofNat 12
  · subst h6; rfl
  by_cases h7 : c = Char.ofNat 13
  · subst h7; rfl
  by_cases h8 : 32 ≤ c.toNat ∧ c.toNat ≤ 126
  · simp only [escapeChar, h1, h2, h3, h4, h5, h6, h7, if_false]
    rw [if_pos h8]
    simp only [List.cons_append, List.nil_append]
    rw [parseStrChars_cons, if_neg h1, if_neg h2]
  by_cases h9 : c.toNat < 65536
  · have hv : c.toNat < 55296 ∨ (57344 ≤ c.toNat ∧ c.toNat < 65536) := by
      rcases charValidRange c with h | h
      · exact Or.inl h
      · exact Or.inr ⟨h.1, h9⟩
    simp only [escapeChar, h1, h2, h3, h4, h5, h6, h7, if_false]
    rw [if_neg h8, if_pos h9]
    simp only [List.cons_append, List.nil_append]
    rw [parseStrChars_cons,
      if_neg (by decide : ¬(('\\' : Char) = '"')), if_pos (rfl : ('\\' : Char) = '\\'),
      parseEscChar_cons,
      if_neg (by decide : ¬(('u' : Char) = '"')),
      if_neg (by decide : ¬(('u' : Char) = '\\')),
      if_neg (by decide : ¬(('u' : Char) = '/')),
      if_neg (by decide : ¬(('u' : Char) = 'b')),
      if_neg (by decide : ¬(('u' : Char) = 't')),
      if_neg (by decide : ¬(('u' : Char) = 'n')),
      if_neg (by decide : ¬(('u' : Char) = 'f')),
      if_neg (by decide : ¬(('u' : Char) = 'r')),
      if_pos (rfl : ('u' : Char) = 'u'),
      parseUEsc_hex4 c.toNat hv tail, Char.ofNat_toNat]
  · have hup : c.toNat < 1114112 := by
      rcases charValidRange c with h | h
      · omega
      · exact h.2
    simp only [escapeChar, h1, h2, h3, h4, h5, h6, h7, if_false]
    rw [if_neg h8, if_neg h9]
    simp only [List.cons_append, List.nil_append, List.append_assoc]
    rw [parseStrChars_cons,
      if_neg (by decide : ¬(('\\' : Char) = '"')), if_pos (rfl : ('\\' : Char) = '\\'),
      parseEscChar_cons,
      if_neg (by decide : ¬(('u' : Char) = '"')),
      if_neg (by decide : ¬(('u' : Char) = '\\')),
      if_neg (by decide : ¬(('u' : Char) = '/')),
      if_neg (by decide : ¬(('u' : Char) = 'b')),
      if_neg (by decide : ¬(('u' : Char) = 't')),
      if_neg (by decide : ¬(('u' : Char) = 'n')),
      if_neg (by decide : ¬(('u' : Char) = 'f')),
      if_neg (by decide : ¬(('u' : Char) = 'r')),
      if_pos (rfl : ('u' : Char) = 'u'),
      parseUEsc_hex4_pair (55296 + (c.toNat - 65536) / 1024)
        (56320 + (c.toNat - 65536) % 1024) (by omega) (by omega) (by omega) (by omega) tail]
    have hN : 65536 + (55296 + (c.toNat - 65536) / 1024 - 55296) * 1024
        + (56320 + (c.toNat - 65536) % 1024 - 56320) = c.toNat := by omega
    rw [hN, Char.ofNat_toNat]

/-- Reading a dumped string gives back its characters. -/
theorem parseStrChars_dumpStr (cs : List Char) (rest : List Char) :
    parseStrChars (dumpStrChars cs ++ rest) = some (cs, rest) := by
  induction cs with
  | nil => simp [dumpStrChars, parseStrChars.eq_def]
  | cons c cs ih =>
    simp only [dumpStrChars, List.append_assoc]
    rw [parseStrChars_escape, ih]
    rfl

/-- A non-whitespace head passes skipWs unchanged. -/
theorem skipWs_cons (c : Char) (cs : List Char) (h : isWsChar c = false) :
    skipWs (c :: cs) = c :: cs := by
  simp [skipWs, h]

/-- Every value is dumped with at least one unit of weight per character
consumed by the parser, never less than the fuel it needs. -/
theorem jweight_pos : ∀ v, 1 ≤ jweight v
  | JVal.null => le_refl 1
  | JVal.bool _ => le_refl 1
  | JVal.int _ => le_refl 1
  | JVal.str _ => le_refl 1
  | JVal.arr _ => Nat.le_add_right 1 _
  | JVal.obj _ => Nat.le_add_right 1 _

/-- The remaining-array dump starts with a delimiter. -/
theorem isDelim_dumpArrTail (ys : List JVal) (rest : List Char) :
    isDelim (dumpArrTail ys ++ rest) = true := by
  cases ys <;> simp [dumpArrTail, isDelim]

/-- The remaining-object dump starts with a delimiter. -/
theorem isDelim_dumpObjTail (kvs : List (String × JVal)) (rest : List Char) :
    isDelim (dumpObjTail kvs ++ rest) = true := by
  cases kvs with
  | nil => simp [dumpObjTail, isDelim]
  | cons kv kvs => cases kv; simp [dumpObjTail, isDelim]

/-- Leading whitespace is irrelevant to the value parser. -/
theorem parseVal_ws (fu : Nat) (s : List Char) :
    parseVal (fu + 1) (' ' :: s) = parseVal (fu + 1) s := rfl

/-- Leading whitespace is irrelevant to the member parser. -/
theorem parseMember_ws (fu : Nat) (acc : List (String × JVal)) (s : List Char) :
    parseMember (fu + 1) acc (' ' :: s) = parseMember (fu + 1) acc s := rfl

mutual

/-- A dumped value has at least as many characters as its parser fuel. -/
theorem jweight_le_dumpLen : ∀ v, jweight v ≤ (dumpJVal v).length
  | JVal.null => by simp [jweight, dumpJVal]
  | JVal.bool b => by cases b <;> simp [jweight, dumpJVal]
  | JVal.int n => by
    have : 1 ≤ (intChars n).length := by
      cases n with
      | ofNat m =>
        obtain ⟨d, t, _, ht⟩ := natDigits_shape m
        simp [intChars, ht]
      | negSucc m => simp [intChars]
    simpa [jweight, dumpJVal] using this
  | JVal.str s => by simp [jweight, dumpJVal]
  | JVal.arr [] => by simp [jweight, jweightArr, dumpJVal]
  | JVal.arr (x :: xs) => by
    have h1 := jweight_le_dumpLen x
    have h2 := jweightArr_le_dumpLen xs
    simp only [jweight, jweightArr, dumpJVal, List.length_cons, List.length_append]
    omega
  | JVal.obj [] => by simp [jweight, jweightObj, dumpJVal]
  | JVal.obj ((k, v) :: kvs) => by
    have h1 := jweight_le_dumpLen v
    have h2 := jweightObj_le_dumpLen kvs
    simp only [jweight, jweightObj, dumpJVal, List.length_cons, List.length_append]
    omega

/-- The dumped array tail has at least its parser fuel plus the close. -/
theorem jweightArr_le_dumpLen : ∀ ys, jweightArr ys + 1 ≤ (dumpArrTail ys).length
  | [] => by simp [jweightArr, dumpArrTail]
  | y :: ys => by
    have h1 := jweight_le_dumpLen y
    have h2 := jweightArr_le_dumpLen ys
    simp only [jweightArr, dumpArrTail, List.length_cons, List.length_append]
    omega

/-- The dumped object tail has at least its parser fuel plus the close. -/
theorem jweightObj_le_dumpLen : ∀ kvs, jweightObj kvs + 1 ≤ (dumpObjTail kvs).length
  | [] => by simp [jweightObj, dumpObjTail]
  | (k, v) :: kvs => by
    have h1 := jweight_le_dumpLen v
    have h2 := jweightObj_le_dumpLen kvs
    simp only [jweightObj, dumpObjTail, List.length_cons, List.length_append]
    omega

end

/-- Whitespace stripping is part of the value parser itself. -/
theorem parseVal_skipWs (fu : Nat) (s : List Char) :
    parseVal fu (' ' :: s) = parseVal fu s := by
  cases fu <;> rfl

/-- Whitespace stripping is part of the member parser itself. -/
theorem parseMember_skipWs (fu : Nat) (acc : List (String × JVal)) (s : List Char) :
    parseMember fu acc (' ' :: s) = parseMember fu acc s := by
  cases fu <;> rfl

/-- The value parser on a string opener. -/
theorem parseVal_strStart (fu : Nat) (X : List Char) :
    parseVal (fu + 1) ('"' :: X)
      = (parseStrChars X).map (fun p => (JVal.str (String.mk p.1), p.2)) := rfl

/-- The value parser on an array opener. -/
theorem parseVal_arrStart (fu : Nat) (X : List Char) :
    parseVal (fu + 1) ('[' :: X)
      = match skipWs X with
        | [] => none
        | d :: ds =>
          if d = ']' then some (JVal.arr [], ds)
          else
            match parseVal fu (d :: ds) with
            | some (v, r) => parseArrTail fu [v] r
            | none => none := rfl

/-- The value parser on an object opener. -/
theorem parseVal_objStart (fu : Nat) (X : List Char) :
    parseVal (fu + 1) (lbrace :: X)
      = match skipWs X with
        | [] => none
        | d :: ds =>
          if d = rbrace then some (JVal.obj [], ds)
          else parseMember fu [] (d :: ds) := rfl

/-- The array-tail parser on a comma. -/
theorem parseArrTail_comma (fu : Nat) (acc : List JVal) (X : List Char) :
    parseArrTail (fu + 1) acc (',' :: X)
      = match parseVal fu X with
        | some (v, r) => parseArrTail fu (acc ++ [v]) r
        | none => none := rfl

/-- The object-tail parser on a comma. -/
theorem parseObjTail_comma (fu : Nat) (acc : List (String × JVal)) (X : List Char) :
    parseObjTail (fu + 1) acc (',' :: X) = parseMember fu acc X := rfl

/-- The member parser on a key opener. -/
theorem parseMember_quote (fu : Nat) (acc : List (String × JVal)) (X : List Char) :
    parseMember (fu + 1) acc ('"' :: X)
      = match parseStrChars X with
        | some (k, r1) =>
          (match skipWs r1 with
          | ':' :: r2 =>
            match parseVal fu r2 with
            | some (v, r3) => parseObjTail fu (acc ++ [(String.mk k, v)]) r3
            | none => none
          | _ => none)
        | none => none := rfl

/-- The value parser dispatches an unrecognized head to the number parser. -/
theorem parseVal_head (fu : Nat) (c : Char) (cs : List Char) (h0 : isWsChar c = false)
    (h1 : ¬(c = 'n')) (h2 : ¬(c = 't')) (h3 : ¬(c = 'f')) (h4 : ¬(c = '"'))
    (h5 : ¬(c = '[')) (h6 : ¬(c = lbrace)) :
    parseVal (fu + 1) (c :: cs)
      = match parseIntLit (c :: cs) with
        | some (n, rest) => some (JVal.int n, rest)
        | none => none := by
  rw [parseVal, skipWs_cons c cs h0]
  show (if c = 'n' then
          match cs with
          | 'u' :: 'l' :: 'l' :: rest => some (JVal.null, rest)
          | _ => none
        else if c = 't' then
          match cs with
          | 'r' :: 'u' :: 'e' :: rest => some (JVal.bool true, rest)
          | _ => none
        else if c = 'f' then
          match cs with
          | 'a' :: 'l' :: 's' :: 'e' :: rest => some (JVal.bool false, rest)
          | _ => none
        else if c = '"' then (parseStrChars cs).map (fun p => (JVal.str (String.mk p.1), p.2))
        else if c = '[' then
          match skipWs cs with
          | [] => none
          | d :: ds =>
            if d = ']' then some (JVal.arr [], ds)
            else
              match parseVal fu (d :: ds) with
              | some (v, r) => parseArrTail fu [v] r
              | none => none
        else if c = lbrace then
          match skipWs cs with
          | [] => none
          | d :: ds =>
            if d = rbrace then some (JVal.obj [], ds)
            else parseMember fu [] (d :: ds)
        else
          match parseIntLit (c :: cs) with
          | some (n, rest) => some (JVal.int n, rest)
          | none => none) = _
  rw [if_neg h1, if_neg h2, if_neg h3, if_neg h4, if_neg h5, if_neg h6]

/-- Decimal digit characters are ordinary heads for the parser. -/
theorem digitChar_facts : ∀ d, d < 10 →
    isWsChar (digitChar d) = false ∧ ¬(digitChar d = ']') ∧ ¬(digitChar d = 'n')
    ∧ ¬(digitChar d = 't') ∧ ¬(digitChar d = 'f') ∧ ¬(digitChar d = '"')
    ∧ ¬(digitChar d = '[') ∧ ¬(digitChar d = lbrace) := by decide

/-- A dumped value starts with a character that is neither whitespace nor an
array close. -/
theorem dumpJVal_head (v : JVal) :
    ∃ c t, dumpJVal v = c :: t ∧ isWsChar c = false ∧ ¬(c = ']') := by
  cases v with
  | null => exact ⟨'n', _, rfl, by decide, by decide⟩
  | bool b => cases b with
    | true => exact ⟨'t', _, rfl, by decide, by decide⟩
    | false => exact ⟨'f', _, rfl, by decide, by decide⟩
  | int n => cases n with
    | ofNat m =>
      obtain ⟨d, t, hd, ht⟩ := natDigits_shape m
      obtain ⟨f1, f2, _⟩ := digitChar_facts d hd
      exact ⟨digitChar d, t, by rw [show dumpJVal (JVal.int (Int.ofNat m)) = natDigits m
        from rfl, ht], f1, f2⟩
    | negSucc m => exact ⟨'-', _, rfl, by decide, by decide⟩
  | str s => exact ⟨'"', _, rfl, by decide, by decide⟩
  | arr xs => cases xs with
    | nil => exact ⟨'[', _, rfl, by decide, by decide⟩
    | cons x xs => exact ⟨'[', _, rfl, by decide, by decide⟩
  | obj kvs => cases kvs with
    | nil => exact ⟨lbrace, _, rfl, by decide, by decide⟩
    | cons kv kvs =>
      cases kv
      exact ⟨lbrace, _, rfl, by decide, by decide⟩

/-- The recursive-descent parser reads back everything json.dumps emits: one
statement per grammar position, proved together by induction on fuel. -/
theorem parse_dump (fu : Nat) :
    (∀ v rest, jweight v ≤ fu → isDelim rest = true →
        parseVal fu (dumpJVal v ++ rest) = some (v, rest))
    ∧ (∀ ys acc rest, jweightArr ys + 1 ≤ fu → isDelim rest = true →
        parseArrTail fu acc (dumpArrTail ys ++ rest) = some (JVal.arr (acc ++ ys), rest))
    ∧ (∀ kvs acc rest, jweightObj kvs + 1 ≤ fu → isDelim rest = true →
        parseObjTail fu acc (dumpObjTail kvs ++ rest) = some (JVal.obj (acc ++ kvs), rest))
    ∧ (∀ (k : String) (v : JVal) kvs acc rest, jweight v + jweightObj kvs + 1 ≤ fu →
        isDelim rest = true →
        parseMember fu acc
            (('"' :: (dumpStrChars k.data ++ ':' :: ' ' :: (dumpJVal v ++ dumpObjTail kvs)))
              ++ rest)
          = some (JVal.obj (acc ++ (k, v) :: kvs), rest)) := by
  induction fu with
  | zero =>
    refine ⟨?_, ?_, ?_, ?_⟩
    · intro v rest hw _; have := jweight_pos v; omega
    · intro ys acc rest hw _; omega
    · intro kvs acc rest hw _; omega
    · intro k v kvs acc rest hw _; have := jweight_pos v; omega
  | succ fu ih =>
    obtain ⟨ihv, iha, iho, ihm⟩ := ih
    refine ⟨?_, ?_, ?_, ?_⟩
    · -- a whole value
      intro v rest hw hrest
      cases v with
      | null => rfl
      | bool b => cases b <;> rfl
      | int n =>
        cases n with
        | ofNat m =>
          obtain ⟨d, t, hd, ht⟩ := natDigits_shape m
          obtain ⟨f0, _, f1, f2, f3, f4, f5, f6⟩ := digitChar_facts d hd
          have hsh : dumpJVal (JVal.int (Int.ofNat m)) = digitChar d :: t := by
            rw [show dumpJVal (JVal.int (Int.ofNat m)) = natDigits m from rfl, ht]
          rw [hsh, List.cons_append, parseVal_head fu _ _ f0 f1 f2 f3 f4 f5 f6,
            ← List.cons_append, ← ht,
            show natDigits m = intChars (Int.ofNat m) from rfl,
            parseIntLit_intChars _ _ hrest]
        | negSucc m =>
          rw [show dumpJVal (JVal.int (Int.negSucc m)) = '-' :: natDigits (m + 1) from rfl,
            List.cons_append,
            parseVal_head fu '-' _ (by decide) (by decide) (by decide) (by decide)
              (by decide) (by decide) (by decide),
            ← List.cons_append,
            show '-' :: natDigits (m + 1) = intChars (Int.negSucc m) from rfl,
            parseIntLit_intChars _ _ hrest]
      | str s =>
        rw [show dumpJVal (JVal.str s) = '"' :: dumpStrChars s.data from rfl,
          List.cons_append, parseVal_strStart, parseStrChars_dumpStr]
        rfl
      | arr xs =>
        cases xs with
        | nil => rfl
        | cons x xs =>
          rw [show dumpJVal (JVal.arr (x :: xs)) = '[' :: (dumpJVal x ++ dumpArrTail xs)
              from rfl,
            List.cons_append, parseVal_arrStart, List.append_assoc]
          obtain ⟨c0, t0, hx, hx1, hx2⟩ := dumpJVal_head x
          rw [hx, List.cons_append, skipWs_cons _ _ hx1]
          show (if c0 = ']' then some (JVal.arr [], t0 ++ (dumpArrTail xs ++ rest))
                else
                  match parseVal fu (c0 :: (t0 ++ (dumpArrTail xs ++ rest))) with
                  | some (v, r) => parseArrTail fu [v] r
                  | none => none)
              = some (JVal.arr (x :: xs), rest)
          rw [if_neg hx2, ← List.cons_append, ← hx]
          simp only [jweight, jweightArr] at hw
          have hpx := jweight_pos x
          rw [ihv x _ (by omega) (isDelim_dumpArrTail xs rest)]
          show parseArrTail fu [x] (dumpArrTail xs ++ rest)
              = some (JVal.arr (x :: xs), rest)
          have H := iha xs [x] rest (by omega) hrest
          simpa using H
      | obj kvs =>
        cases kvs with
        | nil => rfl
        | cons kv kvs =>
          obtain ⟨k, v⟩ := kv
          rw [show dumpJVal (JVal.obj ((k, v) :: kvs))
              = lbrace :: ('"' :: (dumpStrChars k.data
                  ++ ':' :: ' ' :: (dumpJVal v ++ dumpObjTail kvs))) from rfl,
            List.cons_append, parseVal_objStart, List.cons_append,
            skipWs_cons _ _ (by decide)]
          show parseMember fu []
              (('"' :: (dumpStrChars k.data ++ ':' :: ' ' :: (dumpJVal v ++ dumpObjTail kvs)))
                ++ rest)
              = some (JVal.obj ((k, v) :: kvs), rest)
          simp only [jweight, jweightObj] at hw
          have H := ihm k v kvs [] rest (by omega) hrest
          simpa using H
    · -- the tail of an array
      intro ys acc rest hw hrest
      cases ys with
      | nil =>
        rw [show dumpArrTail ([] : List JVal) = [']'] from rfl, List.cons_append,
          List.nil_append, List.append_nil]
        rfl
      | cons y ys =>
        rw [show dumpArrTail (y :: ys) = ',' :: ' ' :: (dumpJVal y ++ dumpArrTail ys)
            from rfl,
          List.cons_append, List.cons_append, parseArrTail_comma, parseVal_skipWs,
          List.append_assoc]
        simp only [jweightArr] at hw
        have hpy := jweight_pos y
        rw [ihv y _ (by omega) (isDelim_dumpArrTail ys rest)]
        show parseArrTail fu (acc ++ [y]) (dumpArrTail ys ++ rest)
            = some (JVal.arr (acc ++ y :: ys), rest)
        have H := iha ys (acc ++ [y]) rest (by omega) hrest
        simpa [List.append_assoc] using H
    · -- the tail of an object
      intro kvs acc rest hw hrest
      cases kvs with
      | nil =>
        rw [show dumpObjTail ([] : List (String × JVal)) = [rbrace] from rfl,
          List.cons_append, List.nil_append, List.append_nil]
        rfl
      | cons kv kvs =>
        obtain ⟨k, v⟩ := kv
        rw [show dumpObjTail ((k, v) :: kvs)
            = ',' :: ' ' :: ('"' :: (dumpStrChars k.data
                ++ ':' :: ' ' :: (dumpJVal v ++ dumpObjTail kvs))) from rfl,
          List.cons_append, List.cons_append, parseObjTail_comma, parseMember_skipWs]
        simp only [jweightObj] at hw
        have H := ihm k v kvs acc rest (by omega) hrest
        simp only [List.cons_append] at H ⊢
        exact H
    · -- one member of an object
      intro k v kvs acc rest hw hrest
      rw [List.cons_append, parseMember_quote, List.append_assoc,
        parseStrChars_dumpStr k.data _]
      show (match skipWs ((':' :: ' ' :: (dumpJVal v ++ dumpObjTail kvs)) ++ rest) with
            | ':' :: r2 =>
              match parseVal fu r2 with
              | some (v2, r3) => parseObjTail fu (acc ++ [(String.mk k.data, v2)]) r3
              | none => none
            | _ => none)
          = some (JVal.obj (acc ++ (k, v) :: kvs), rest)
      rw [List.cons_append, skipWs_cons _ _ (by decide)]
      show (match parseVal fu ((' ' :: (dumpJVal v ++ dumpObjTail kvs)) ++ rest) with
            | some (v2, r3) => parseObjTail fu (acc ++ [(String.mk k.data, v2)]) r3
            | none => none)
          = some (JVal.obj (acc ++ (k, v) :: kvs), rest)
      rw [List.cons_append, parseVal_skipWs, List.append_assoc]
      have hpv := jweight_pos v
      rw [ihv v _ (by omega) (isDelim_dumpObjTail kvs rest)]
      show parseObjTail fu (acc ++ [(String.mk k.data, v)]) (dumpObjTail kvs ++ rest)
          = some (JVal.obj (acc ++ (k, v) :: kvs), rest)
      have H := iho kvs (acc ++ [(k, v)]) rest (by omega) hrest
      simpa [List.append_assoc] using H

/-- json.loads reads back exactly what json.dumps wrote. -/
theorem jsonLoads_dumpJVal (v : JVal) : jsonLoads (dumpJVal v) = some v := by
  unfold jsonLoads
  have hfu : jweight v ≤ (dumpJVal v).length + 1 :=
    le_trans (jweight_le_dumpLen v) (Nat.le_succ _)
  have H := (parse_dump ((dumpJVal v).length + 1)).1 v [] hfu rfl
  rw [List.append_nil] at H
  rw [H]
  rfl

/-- Four hex digits are ASCII. -/
theorem hex4_ascii (m : Nat) : ∀ y ∈ hex4 m, y.toNat < 128 := by
  have hhex : ∀ b, b < 16 → (hexDigitChar b).toNat < 128 := by decide
  intro y hy
  rcases List.mem_cons.mp hy with rfl | hy
  · exact hhex _ (Nat.mod_lt _ (by norm_num))
  rcases List.mem_cons.mp hy with rfl | hy
  · exact hhex _ (Nat.mod_lt _ (by norm_num))
  rcases List.mem_cons.mp hy with rfl | hy
  · exact hhex _ (Nat.mod_lt _ (by norm_num))
  rcases List.mem_cons.mp hy with rfl | hy
  · exact hhex _ (Nat.mod_lt _ (by norm_num))
  exact absurd hy (List.not_mem_nil _)

/-- Escaped output is pure ASCII (ensure_ascii). -/
theorem escapeChar_ascii (c : Char) : ∀ x ∈ escapeChar c, x.toNat < 128 := by
  intro x hx
  unfold escapeChar at hx
  split_ifs at hx with h1 h2 h3 h4 h5 h6 h7 h8 h9
  · exact (show ∀ y ∈ (['\\', '"'] : List Char), y.toNat < 128 by decide) x hx
  · exact (show ∀ y ∈ (['\\', '\\'] : List Char), y.toNat < 128 by decide) x hx
  · exact (show ∀ y ∈ (['\\', 'b'] : List Char), y.toNat < 128 by decide) x hx
  · exact (show ∀ y ∈ (['\\', 't'] : List Char), y.toNat < 128 by decide) x hx
  · exact (show ∀ y ∈ (['\\', 'n'] : List Char), y.toNat < 128 by decide) x hx
  · exact (show ∀ y ∈ (['\\', 'f'] : List Char), y.toNat < 128 by decide) x hx
  · exact (show ∀ y ∈ (['\\', 'r'] : List Char), y.toNat < 128 by decide) x hx
  · rw [List.mem_singleton.mp hx]; omega
  · rcases List.mem_cons.mp hx with rfl | hx
    · decide
    rcases List.mem_cons.mp hx with rfl | hx
    · decide
    exact hex4_ascii _ x hx
  · rcases List.mem_append.mp hx with hx | hx
    · rcases List.mem_cons.mp hx with rfl | hx
      · decide
      rcases List.mem_cons.mp hx with rfl | hx
      · decide
      exact hex4_ascii _ x hx
    · rcases List.mem_cons.mp hx with rfl | hx
      · decide
      rcases List.mem_cons.mp hx with rfl | hx
      · decide
      exact hex4_ascii _ x hx

/-- Rendered digits are ASCII. -/
theorem natDigits_ascii (n : Nat) : ∀ x ∈ natDigits n, x.toNat < 128 := by
  induction n using Nat.strong_induction_on with
  | _ n ih =>
    intro x hx
    have hdig : ∀ d, d < 10 → (digitChar d).toNat < 128 := by decide
    rw [natDigits] at hx
    by_cases h : n < 10
    · simp only [h, dite_true, List.mem_singleton] at hx
      subst hx; exact hdig n h
    · simp only [h, dite_false, List.mem_append, List.mem_singleton] at hx
      rcases hx with hx | rfl
      · exact ih (n / 10) (by omega) x hx
      · exact hdig _ (by omega)

/-- A dumped string literal is ASCII. -/
theorem dumpStrChars_ascii (cs : List Char) : ∀ x ∈ dumpStrChars cs, x.toNat < 128 := by
  induction cs with
  | nil =>
    intro x hx
    rw [List.mem_singleton.mp hx]; decide
  | cons c cs ih =>
    intro x hx
    rcases List.mem_append.mp hx with hx | hx
    · exact escapeChar_ascii c x hx
    · exact ih x hx

mutual

/-- A dumped value is pure ASCII text. -/
theorem dumpJVal_ascii : ∀ v, ∀ x ∈ dumpJVal v, x.toNat < 128
  | JVal.null => fun x hx =>
    (show ∀ y ∈ (['n', 'u', 'l', 'l'] : List Char), y.toNat < 128 by decide) x hx
  | JVal.bool true => fun x hx =>
    (show ∀ y ∈ (['t', 'r', 'u', 'e'] : List Char), y.toNat < 128 by decide) x hx
  | JVal.bool false => fun x hx =>
    (show ∀ y ∈ (['f', 'a', 'l', 's', 'e'] : List Char), y.toNat < 128 by decide) x hx
  | JVal.int (Int.ofNat m) => fun x hx => natDigits_ascii m x hx
  | JVal.int (Int.negSucc m) => by
    intro x hx
    rcases List.mem_cons.mp hx with rfl | hx
    · decide
    · exact natDigits_ascii (m + 1) x hx
  | JVal.str s => by
    intro x hx
    rcases List.mem_cons.mp hx with rfl | hx
    · decide
    · exact dumpStrChars_ascii s.data x hx
  | JVal.arr [] => fun x hx =>
    (show ∀ y ∈ (['[', ']'] : List Char), y.toNat < 128 by decide) x hx
  | JVal.arr (y :: ys) => by
    intro x hx
    rcases List.mem_cons.mp hx with rfl | hx
    · decide
    · rcases List.mem_append.mp hx with hx | hx
      · exact dumpJVal_ascii y x hx
      · exact dumpArrTail_ascii ys x hx
  | JVal.obj [] => fun x hx =>
    (show ∀ y ∈ ([lbrace, rbrace] : List Char), y.toNat < 128 by decide) x hx
  | JVal.obj ((k, v) :: kvs) => by
    intro x hx
    rcases List.mem_cons.mp hx with rfl | hx
    · decide
    rcases List.mem_cons.mp hx with rfl | hx
    · decide
    rcases List.mem_append.mp hx with hx | hx
    · exact dumpStrChars_ascii k.data x hx
    rcases List.mem_cons.mp hx with rfl | hx
    · decide
    rcases List.mem_cons.mp hx with rfl | hx
    · decide
    rcases List.mem_append.mp hx with hx | hx
    · exact dumpJVal_ascii v x hx
    · exact dumpObjTail_ascii kvs x hx

/-- A dumped array tail is pure ASCII text. -/
theorem dumpArrTail_ascii : ∀ ys, ∀ x ∈ dumpArrTail ys, x.toNat < 128
  | [] => fun x hx => by rw [List.mem_singleton.mp hx]; decide
  | y :: ys => by
    intro x hx
    rcases List.mem_cons.mp hx with rfl | hx
    · decide
    rcases List.mem_cons.mp hx with rfl | hx
    · decide
    rcases List.mem_append.mp hx with hx | hx
    · exact dumpJVal_ascii y x hx
    · exact dumpArrTail_ascii ys x hx

/-- A dumped object tail is pure ASCII text. -/
theorem dumpObjTail_ascii : ∀ kvs, ∀ x ∈ dumpObjTail kvs, x.toNat < 128
  | [] => fun x hx => by rw [List.mem_singleton.mp hx]; decide
  | (k, v) :: kvs => by
    intro x hx
    rcases List.mem_cons.mp hx with rfl | hx
    · decide
    rcases List.mem_cons.mp hx with rfl | hx
    · decide
    rcases List.mem_cons.mp hx with rfl | hx
    · decide
    rcases List.mem_append.mp hx with hx | hx
    · exact dumpStrChars_ascii k.data x hx
    rcases List.mem_cons.mp hx with rfl | hx
    · decide
    rcases List.mem_cons.mp hx with rfl | hx
    · decide
    rcases List.mem_append.mp hx with hx | hx
    · exact dumpJVal_ascii v x hx
    · exact dumpObjTail_ascii kvs x hx

end

/-- UTF-8 decoding inverts encoding on ASCII text (the only text the dumps
pipeline produces, since ensure_ascii escapes everything else). -/
theorem utf8Decode_utf8Encode_ascii (s : List Char) (h : ∀ c ∈ s, c.toNat < 128) :
    utf8Decode (utf8Encode s) = some s := by
  induction s with
  | nil => rfl
  | cons c cs ih =>
    have hc : c.toNat < 128 := h c (List.mem_cons_self c cs)
    have hcs : ∀ x ∈ cs, x.toNat < 128 := fun x hx => h x (List.mem_cons_of_mem c hx)
    rw [show utf8Encode (c :: cs) = utf8EncodeChar c ++ utf8Encode cs from rfl,
      show utf8EncodeChar c = [c.toNat] from by unfold utf8EncodeChar; rw [if_pos hc],
      List.cons_append, List.nil_append]
    rw [utf8Decode, if_pos hc, ih hcs, Char.ofNat_toNat]
    rfl

/-- Every UTF-8 byte is a byte. -/
theorem utf8Encode_lt_256 (s : List Char) : ∀ b ∈ utf8Encode s, b < 256 := by
  induction s with
  | nil => intro b hb; exact absurd hb (List.not_mem_nil _)
  | cons c cs ih =>
    intro b hb
    rcases List.mem_append.mp hb with hb | hb
    · have hv : c.toNat < 1114112 := by
        rcases charValidRange c with h | h
        · omega
        · exact h.2
      unfold utf8EncodeChar at hb
      split_ifs at hb with w1 w2 w3
      · rw [List.mem_singleton.mp hb]; omega
      · rcases List.mem_cons.mp hb with rfl | hb
        · omega
        rw [List.mem_singleton.mp hb]; omega
      · rcases List.mem_cons.mp hb with rfl | hb
        · omega
        rcases List.mem_cons.mp hb with rfl | hb
        · omega
        rw [List.mem_singleton.mp hb]; omega
      · rcases List.mem_cons.mp hb with rfl | hb
        · omega
        rcases List.mem_cons.mp hb with rfl | hb
        · omega
        rcases List.mem_cons.mp hb with rfl | hb
        · omega
        rw [List.mem_singleton.mp hb]; omega
    · exact ih b hb

/-- Looking a base64 character back up recovers its sextet. -/
theorem b64val?_b64chr : ∀ k, k < 64 → b64val? (b64chr k) = some k := by decide

/-- No sextet is rendered as the padding character. -/
theorem b64chr_ne_pad : ∀ k, k < 64 → ¬(b64chr k = '=') := by decide

/-- One reading step of the base64 decoder, after the first two sextets are
recovered. -/
theorem b64decode_step (c1 c2 c3 c4 : Char) (x y : Nat) (rest : List Char)
    (h1 : b64val? c1 = some x) (h2 : b64val? c2 = some y) :
    b64decodeBytes (c1 :: c2 :: c3 :: c4 :: rest)
      = if c3 = '=' then
          (if c4 = '=' ∧ rest = [] then
            (if y % 16 = 0 then some [x * 4 + y / 16] else none)
          else none)
        else
          match b64val? c3 with
          | some z =>
            if c4 = '=' then
              (if rest = [] then
                (if z % 4 = 0 then some [x * 4 + y / 16, y % 16 * 16 + z / 4] else none)
              else none)
            else
              match b64val? c4, b64decodeBytes rest with
              | some w, some tl =>
                some ((x * 4 + y / 16) :: (y % 16 * 16 + z / 4) :: (z % 4 * 64 + w) :: tl)
              | _, _ => none
          | none => none := by
  rw [b64decodeBytes, h1, h2]

/-- Reading a non-final base64 group, all four characters alphabet members. -/
theorem b64decode_group (c1 c2 c3 c4 : Char) (x y z w : Nat) (rest : List Char)
    (h1 : b64val? c1 = some x) (h2 : b64val? c2 = some y) (h3 : b64val? c3 = some z)
    (h4 : b64val? c4 = some w) (hz : ¬(c3 = '=')) (hw : ¬(c4 = '=')) :
    b64decodeBytes (c1 :: c2 :: c3 :: c4 :: rest)
      = match b64decodeBytes rest with
        | some tl =>
          some ((x * 4 + y / 16) :: (y % 16 * 16 + z / 4) :: (z % 4 * 64 + w) :: tl)
        | none => none := by
  rw [b64decode_step c1 c2 c3 c4 x y rest h1 h2, if_neg hz, h3]
  show (if c4 = '=' then _ else
        match b64val? c4, b64decodeBytes rest with
        | some w, some tl =>
          some ((x * 4 + y / 16) :: (y % 16 * 16 + z / 4) :: (z % 4 * 64 + w) :: tl)
        | _, _ => none) = _
  rw [if_neg hw, h4]
  cases b64decodeBytes rest <;> rfl

/-- base64 decoding inverts base64 encoding on byte lists. -/
theorem b64decode_b64encode : ∀ bs, (∀ b ∈ bs, b < 256) →
    b64decodeBytes (b64encodeBytes bs) = some bs
  | [] => fun _ => rfl
  | [a] => by
    intro h
    have ha : a < 256 := h a (List.mem_singleton_self a)
    have h1 : a / 4 < 64 := by omega
    have h2 : a % 4 * 16 < 64 := by omega
    rw [show b64encodeBytes [a] = [b64chr (a / 4), b64chr (a % 4 * 16), '=', '='] from rfl,
      b64decode_step _ _ _ _ _ _ _ (b64val?_b64chr _ h1) (b64val?_b64chr _ h2),
      if_pos rfl, if_pos (And.intro rfl rfl), if_pos (by omega : a % 4 * 16 % 16 = 0),
      show a / 4 * 4 + a % 4 * 16 / 16 = a from by omega]
  | [a, b] => by
    intro h
    have ha : a < 256 := h a (by simp)
    have hb : b < 256 := h b (by simp)
    have h1 : a / 4 < 64 := by omega
    have h2 : a % 4 * 16 + b / 16 < 64 := by omega
    have h3 : b % 16 * 4 < 64 := by omega
    rw [show b64encodeBytes [a, b]
        = [b64chr (a / 4), b64chr (a % 4 * 16 + b / 16), b64chr (b % 16 * 4), '='] from rfl,
      b64decode_step _ _ _ _ _ _ _ (b64val?_b64chr _ h1) (b64val?_b64chr _ h2),
      if_neg (b64chr_ne_pad _ h3), b64val?_b64chr _ h3]
    show (if ('=' : Char) = '=' then
          (if ([] : List Char) = [] then
            (if b % 16 * 4 % 4 = 0 then
              some [a / 4 * 4 + (a % 4 * 16 + b / 16) / 16,
                (a % 4 * 16 + b / 16) % 16 * 16 + b % 16 * 4 / 4]
            else none)
          else none)
        else _) = some [a, b]
    rw [if_pos rfl, if_pos rfl, if_pos (by omega : b % 16 * 4 % 4 = 0),
      show a / 4 * 4 + (a % 4 * 16 + b / 16) / 16 = a from by omega,
      show (a % 4 * 16 + b / 16) % 16 * 16 + b % 16 * 4 / 4 = b from by omega]
  | a :: b :: c :: rest => by
    intro h
    have ha : a < 256 := h a (by simp)
    have hb : b < 256 := h b (by simp)
    have hc : c < 256 := h c (by simp)
    have hrest : ∀ x ∈ rest, x < 256 := fun x hx => h x (by simp [hx])
    have h1 : a / 4 < 64 := by omega
    have h2 : a % 4 * 16 + b / 16 < 64 := by omega
    have h3 : b % 16 * 4 + c / 64 < 64 := by omega
    have h4 : c % 64 < 64 := by omega
    rw [show b64encodeBytes (a :: b :: c :: rest)
        = b64chr (a / 4) :: b64chr (a % 4 * 16 + b / 16) :: b64chr (b % 16 * 4 + c / 64)
          :: b64chr (c % 64) :: b64encodeBytes rest from rfl,
      b64decode_group _ _ _ _ _ _ _ _ _ (b64val?_b64chr _ h1) (b64val?_b64chr _ h2)
        (b64val?_b64chr _ h3) (b64val?_b64chr _ h4) (b64chr_ne_pad _ h3)
        (b64chr_ne_pad _ h4),
      b64decode_b64encode rest hrest,
      show a / 4 * 4 + (a % 4 * 16 + b / 16) / 16 = a from by omega,
      show (a % 4 * 16 + b / 16) % 16 * 16 + (b % 16 * 4 + c / 64) / 4 = b from by omega,
      show (b % 16 * 4 + c / 64) % 4 * 64 + c % 64 = c from by omega]

/-- Decoding the encoded action parameters of any JSON value gives it back. -/
theorem decodeActionParams_encode (d : JVal) :
    decodeActionParams (b64encodeBytes (utf8Encode (dumpJVal d))) = some d := by
  unfold decodeActionParams
  rw [b64decode_b64encode _ (utf8Encode_lt_256 _)]
  show (match utf8Decode (utf8Encode (dumpJVal d)) with
        | none => none
        | some chars => jsonLoads chars) = some d
  rw [utf8Decode_utf8Encode_ascii _ (dumpJVal_ascii d)]
  show jsonLoads (dumpJVal d) = some d
  exact jsonLoads_dumpJVal d

/-- C9: the action-dictionary encoding is lossless: for every action
dictionary (JSON value) d, `json.loads(base64.b64decode(get_action_params d))`
is exactly d, and likewise the encoding built by ore_id_asa_action decodes to
exactly the action dictionary it was built from. -/
theorem get_action_params_lossless :
    (∀ d : JVal, decodeActionParams (get_action_params d) = some d)
    ∧ ∀ (sender : String) (asa_id amount : Nat),
        decodeActionParams (ore_id_asa_action sender asa_id amount)
          = some (oreActionDict sender asa_id amount) :=
  ⟨fun d => decodeActionParams_encode d,
   fun sender asa_id amount => decodeActionParams_encode (oreActionDict sender asa_id amount)⟩

/-- The signing request's first component is the payload with the encoded
self-transfer intent, whatever the HTTP response is. -/
theorem ore_id_asa_sign_transaction_req (http : SignRequest → OreResponse)
    (account password chain_action_type : String) (asa_id amount : Nat)
    (broadcast : Bool) (chain_account chain_network : String) :
    (ore_id_asa_sign_transaction http account password chain_action_type asa_id amount
        broadcast chain_account chain_network).1
      = ⟨account, broadcast, chain_account, chain_network,
          ore_id_asa_action chain_account asa_id amount, password⟩ := by
  rfl

/-- C10: the encoded transfer intent submitted by ore_id_asa_sign_transaction
always has from = to = chain_account: decoded, it is the self-transfer action
dictionary, whose from and to lookups both give the chain account, for every
combination of arguments. -/
theorem ore_id_asa_sign_transaction_self_transfer (http : SignRequest → OreResponse)
    (account password chain_action_type : String) (asa_id amount : Nat)
    (broadcast : Bool) (chain_account chain_network : String) :
    (decodeActionParams ((ore_id_asa_sign_transaction http account password
          chain_action_type asa_id amount broadcast chain_account chain_network).1.transaction)
        = some (oreActionDict chain_account asa_id amount))
    ∧ ((decodeActionParams ((ore_id_asa_sign_transaction http account password
          chain_action_type asa_id amount broadcast chain_account chain_network).1.transaction)).bind
          (fun v => v.lookup? "from")
        = some (JVal.str chain_account))
    ∧ ((decodeActionParams ((ore_id_asa_sign_transaction http account password
          chain_action_type asa_id amount broadcast chain_account chain_network).1.transaction)).bind
          (fun v => v.lookup? "to")
        = some (JVal.str chain_account)) := by
  rw [ore_id_asa_sign_transaction_req]
  have hd : decodeActionParams (ore_id_asa_action chain_account asa_id amount)
      = some (oreActionDict chain_account asa_id amount) :=
    decodeActionParams_encode (oreActionDict chain_account asa_id amount)
  refine ⟨hd, ?_, ?_⟩
  · show (decodeActionParams (ore_id_asa_action chain_account asa_id amount)).bind
        (fun v => v.lookup? "from") = some (JVal.str chain_account)
    rw [hd]
    rfl
  · show (decodeActionParams (ore_id_asa_action chain_account asa_id amount)).bind
        (fun v => v.lookup? "to") = some (JVal.str chain_account)
    rw [hd]
    rfl

/-- C5 as stated is false: for the HTTP 400 response whose body carries only
an errorMessage field, ore_id_asa_sign_transaction logs just the warning —
the errorMessage value is never inspected or logged (unlike sign_transaction,
which checks all three fields). -/
theorem ore_sign_errorMessage_counterexample :
    (ore_id_asa_sign_transaction (fun _ => c5resp) "acct" "pwd" "AssetTransfer" 1 0 true
        "CHAIN" "algo_test").2 = Except.ok [OreLog.warnIssue "err"]
    ∧ c5resp.statusCode ≠ 200
    ∧ c5resp.errorMessage = some "x"
    ∧ OreLog.errorField "x" ∉ [OreLog.warnIssue "err"] := by
  exact ⟨rfl, by decide, rfl, by decide⟩

/-- C5 amended: ore_id_asa_sign_transaction interprets its HTTP response by
oreSignHandleResponse, which never raises; status 200 logs success and
returns; otherwise the truthy `error` and `message` body fields are each
logged — but `errorMessage` is never inspected (the handler's result does not
depend on it). -/
theorem ore_sign_response_amended (http : SignRequest → OreResponse)
    (account password chain_action_type : String) (asa_id amount : Nat) (broadcast : Bool)
    (chain_account chain_network : String) :
    ((ore_id_asa_sign_transaction http account password chain_action_type asa_id amount
        broadcast chain_account chain_network).2
      = oreSignHandleResponse (http (ore_id_asa_sign_transaction http account password
          chain_action_type asa_id amount broadcast chain_account chain_network).1))
    ∧ (∀ res : OreResponse, ∃ logs, oreSignHandleResponse res = Except.ok logs)
    ∧ (∀ res : OreResponse, res.statusCode = 200 →
        oreSignHandleResponse res = Except.ok [OreLog.infoSuccess res.content])
    ∧ (∀ res : OreResponse, res.statusCode ≠ 200 → ∀ e, res.error = some e → e ≠ "" →
        ∃ logs, oreSignHandleResponse res = Except.ok logs ∧ OreLog.errorField e ∈ logs)
    ∧ (∀ res : OreResponse, res.statusCode ≠ 200 → ∀ m, res.message = some m → m ≠ "" →
        ∃ logs, oreSignHandleResponse res = Except.ok logs ∧ OreLog.errorField m ∈ logs)
    ∧ (∀ (res : OreResponse) (em : Option String),
        oreSignHandleResponse res = oreSignHandleResponse { res with errorMessage := em }) := by
  refine ⟨rfl, ?_, ?_, ?_, ?_, ?_⟩
  · intro res
    unfold oreSignHandleResponse
    by_cases hs : (res.statusCode == 200) = true
    · exact ⟨_, by rw [if_pos hs]⟩
    · rw [if_neg hs]
      exact ⟨_, rfl⟩
  · intro res hs
    unfold oreSignHandleResponse
    rw [if_pos (by simp [hs])]
  · intro res hs e he hne
    have hbeq : ¬((res.statusCode == 200) = true) := by simpa using hs
    have htr : truthyStr res.error = true := by simp [truthyStr, he, hne]
    unfold oreSignHandleResponse
    rw [if_neg hbeq]
    refine ⟨_, rfl, ?_⟩
    have hget : res.error.getD "" = e := by rw [he]; rfl
    by_cases hm : truthyStr res.message = true
    · rw [if_pos hm, if_pos htr, hget]
      simp
    · rw [if_neg hm, if_pos htr, hget]
      simp
  · intro res hs m hm hne
    have hbeq : ¬((res.statusCode == 200) = true) := by simpa using hs
    have htr : truthyStr res.message = true := by simp [truthyStr, hm, hne]
    unfold oreSignHandleResponse
    rw [if_neg hbeq]
    refine ⟨_, rfl, ?_⟩
    have hget : res.message.getD "" = m := by rw [hm]; rfl
    by_cases herr : truthyStr res.error = true
    · rw [if_pos htr, if_pos herr, hget]
      simp
    · rw [if_pos htr, if_neg herr, hget]
      simp
  · intro res em
    rfl

/-- Witness for the amended C5: an HTTP 400 body with error "e1" gets that
error logged without an exception. -/
theorem ore_sign_response_amended_witness :
    ∃ logs, oreSignHandleResponse
        { statusCode := 400, error := some "e1", message := none, errorMessage := none,
          content := "c", text := "t" } = Except.ok logs
      ∧ OreLog.errorField "e1" ∈ logs :=
  (ore_sign_response_amended
      (fun _ => (⟨400, some "e1", none, none, "c", "t"⟩ : OreResponse))
      "acct" "pwd" "AssetTransfer" 1 0 true "CHAIN" "algo_test").2.2.2.1
    ⟨400, some "e1", none, none, "c", "t"⟩
    (by decide) "e1" rfl (by decide)

/-- Lookups recorded by one enrichment step: they concern only this position,
use only attempts 0 and 1, the retry only after a first rate-limit, and each
occurs exactly once. -/
theorem enrichOne_lookup_facts (lk : Nat → Nat → MetaOutcome) (pos : Nat)
    (ast : AssetHolding) (evs1 : List MetaEvent) (e1 : EnrichedAsset)
    (h : enrichOne lk pos ast = Except.ok (evs1, e1)) :
    ∀ p a, MetaEvent.lookup p a ∈ evs1 →
      p = pos ∧ (a = 0 ∨ (a = 1 ∧ ∃ msg, lk pos 0 = MetaOutcome.rateLimited msg))
      ∧ List.count (MetaEvent.lookup p a) evs1 = 1 := by
  unfold enrichOne at h
  cases h0 : lk pos 0 with
  | found name =>
    rw [h0] at h
    obtain ⟨h1, _⟩ := Prod.mk.injEq .. ▸ Except.ok.injEq .. ▸ h
    intro p a hpa
    rw [← h1] at hpa
    rcases List.mem_cons.mp hpa with he | he
    · obtain ⟨rfl, rfl⟩ : p = pos ∧ a = 0 := by
        constructor <;> [exact (MetaEvent.lookup.injEq .. ▸ he).1;
          exact (MetaEvent.lookup.injEq .. ▸ he).2]
      refine ⟨rfl, Or.inl rfl, ?_⟩
      rw [← h1]
      simp
    · simp at he
  | failed msg => rw [h0] at h; exact absurd h (by simp)
  | rateLimited msg =>
    rw [h0] at h
    cases h1 : lk pos 1 with
    | found name =>
      rw [h1] at h
      obtain ⟨hevs, _⟩ := Prod.mk.injEq .. ▸ Except.ok.injEq .. ▸ h
      intro p a hpa
      rw [← hevs] at hpa
      simp only [List.mem_cons, List.not_mem_nil, or_false] at hpa
      rcases hpa with he | he | he | he | he
      · obtain ⟨rfl, rfl⟩ := MetaEvent.lookup.injEq .. ▸ he
        refine ⟨rfl, Or.inl rfl, ?_⟩
        rw [← hevs]; simp
      · cases he
      · cases he
      · obtain ⟨rfl, rfl⟩ := MetaEvent.lookup.injEq .. ▸ he
        refine ⟨rfl, Or.inr ⟨rfl, msg, rfl⟩, ?_⟩
        rw [← hevs]; simp
      · cases he
    | rateLimited m2 =>
      rw [h1] at h
      obtain ⟨hevs, _⟩ := Prod.mk.injEq .. ▸ Except.ok.injEq .. ▸ h
      intro p a hpa
      rw [← hevs] at hpa
      simp only [List.mem_cons, List.not_mem_nil, or_false] at hpa
      rcases hpa with he | he | he | he | he
      · obtain ⟨rfl, rfl⟩ := MetaEvent.lookup.injEq .. ▸ he
        refine ⟨rfl, Or.inl rfl, ?_⟩
        rw [← hevs]; simp
      · cases he
      · cases he
      · obtain ⟨rfl, rfl⟩ := MetaEvent.lookup.injEq .. ▸ he
        refine ⟨rfl, Or.inr ⟨rfl, msg, rfl⟩, ?_⟩
        rw [← hevs]; simp
      · cases he
    | failed m2 =>
      rw [h1] at h
      obtain ⟨hevs, _⟩ := Prod.mk.injEq .. ▸ Except.ok.injEq .. ▸ h
      intro p a hpa
      rw [← hevs] at hpa
      simp only [List.mem_cons, List.not_mem_nil, or_false] at hpa
      rcases hpa with he | he | he | he | he
      · obtain ⟨rfl, rfl⟩ := MetaEvent.lookup.injEq .. ▸ he
        refine ⟨rfl, Or.inl rfl, ?_⟩
        rw [← hevs]; simp
      · cases he
      · cases he
      · obtain ⟨rfl, rfl⟩ := MetaEvent.lookup.injEq .. ▸ he
        refine ⟨rfl, Or.inr ⟨rfl, msg, rfl⟩, ?_⟩
        rw [← hevs]; simp
      · cases he

/-- Lookups in an enrichment run: positions stay in range, attempts are 0 or
a retry-after-rate-limit 1, and each lookup happens exactly once. -/
theorem enrichAll_lookup_facts (lk : Nat → Nat → MetaOutcome) :
    ∀ (asts : List AssetHolding) (pos : Nat) (evs : List MetaEvent)
      (es : List EnrichedAsset),
      enrichAll lk pos asts = Except.ok (evs, es) →
      ∀ p a, MetaEvent.lookup p a ∈ evs →
        pos ≤ p ∧ (a = 0 ∨ (a = 1 ∧ ∃ msg, lk p 0 = MetaOutcome.rateLimited msg))
        ∧ List.count (MetaEvent.lookup p a) evs = 1 := by
  intro asts
  induction asts with
  | nil =>
    intro pos evs es h p a hpa
    obtain ⟨hevs, _⟩ := Prod.mk.injEq .. ▸ Except.ok.injEq .. ▸ h
    rw [← hevs] at hpa
    cases hpa
  | cons ast rest ih =>
    intro pos evs es h p a hpa
    unfold enrichAll at h
    cases henr : enrichOne lk pos ast with
    | error msg => rw [henr] at h; exact absurd h (by simp [Bind.bind, Except.bind])
    | ok pr =>
      obtain ⟨evs1, e1⟩ := pr
      rw [henr] at h
      cases hall : enrichAll lk (pos + 1) rest with
      | error msg =>
        rw [hall] at h
        exact absurd h (by simp [Bind.bind, Except.bind])
      | ok pr2 =>
        obtain ⟨evs2, es2⟩ := pr2
        rw [hall] at h
        simp only [Bind.bind, Except.bind] at h
        obtain ⟨hevs, _⟩ := Prod.mk.injEq .. ▸ Except.ok.injEq .. ▸ h
        rw [← hevs] at hpa ⊢
        have hone := enrichOne_lookup_facts lk pos ast evs1 e1 henr
        have hrest := ih (pos + 1) evs2 es2 hall
        rcases List.mem_append.mp hpa with hm | hm
        · obtain ⟨rfl, hatt, hcnt⟩ := hone p a hm
          have hnot2 : MetaEvent.lookup p a ∉ evs2 := by
            intro hmem
            have := (hrest p a hmem).1
            omega
          refine ⟨le_refl p, ?_, ?_⟩
          · rcases hatt with rfl | ⟨rfl, msg, hmsg⟩
            · exact Or.inl rfl
            · exact Or.inr ⟨rfl, msg, hmsg⟩
          · rw [List.count_append, hcnt, List.count_eq_zero.mpr hnot2]
        · obtain ⟨hge, hatt, hcnt⟩ := hrest p a hm
          have hnot1 : MetaEvent.lookup p a ∉ evs1 := by
            intro hmem
            have := (hone p a hmem).1
            omega
          refine ⟨by omega, hatt, ?_⟩
          rw [List.count_append, hcnt, List.count_eq_zero.mpr hnot1]

/-- An enrichment run never fails when no first lookup attempt raises a
non-rate-limit exception. -/
theorem enrichAll_ok (lk : Nat → Nat → MetaOutcome)
    (hlk : ∀ p msg, lk p 0 ≠ MetaOutcome.failed msg) :
    ∀ (asts : List AssetHolding) (pos : Nat),
      ∃ res, enrichAll lk pos asts = Except.ok res := by
  intro asts
  induction asts with
  | nil => exact fun pos => ⟨([], []), rfl⟩
  | cons ast rest ih =>
    intro pos
    obtain ⟨res2, hres2⟩ := ih (pos + 1)
    obtain ⟨evs2, es2⟩ := res2
    have hone : ∃ evs1 e1, enrichOne lk pos ast = Except.ok (evs1, e1) := by
      unfold enrichOne
      cases h0 : lk pos 0 with
      | found name => exact ⟨_, _, rfl⟩
      | failed msg => exact absurd h0 (hlk pos msg)
      | rateLimited msg =>
        cases h1 : lk pos 1 with
        | found name => exact ⟨_, _, rfl⟩
        | rateLimited m2 => exact ⟨_, _, rfl⟩
        | failed m2 => exact ⟨_, _, rfl⟩
    obtain ⟨evs1, e1, hone⟩ := hone
    refine ⟨(evs1 ++ evs2, e1 :: es2), ?_⟩
    unfold enrichAll
    rw [hone, hres2]
    rfl

theorem detailsBranch_lookup_facts (lk : Nat → Nat → MetaOutcome) (inc : Bool)
    (amount : Nat) (asset_dict : List AssetHolding)
    (out : FetchOut DetailedEntry × Bool) (evs : List MetaEvent)
    (h : detailsBranch lk inc amount asset_dict = Except.ok (out, evs)) :
    ∀ p a, MetaEvent.lookup p a ∈ evs →
      (a = 0 ∨ (a = 1 ∧ ∃ msg, lk p 0 = MetaOutcome.rateLimited msg))
      ∧ List.count (MetaEvent.lookup p a) evs = 1 := by
  intro p a hpa
  simp only [detailsBranch] at h
  cases hall : enrichAll lk 0
      (if inc then asset_dict else asset_dict.filter (fun v => v.amount != 0)) with
  | error msg =>
    rw [hall] at h
    exact absurd h (by simp [Except.bind])
  | ok pr =>
    obtain ⟨evs', enriched⟩ := pr
    rw [hall] at h
    simp only [Except.bind] at h
    by_cases hnames : enriched.all (fun e => e.name.isSome) = true
    · rw [if_pos hnames] at h
      injection h with h; injection h with h1 h2
      rw [← h2] at hpa
      have := enrichAll_lookup_facts lk _ 0 evs' enriched hall p a hpa
      rw [← h2]
      exact ⟨this.2.1, this.2.2⟩
    · rw [if_neg hnames] at h
      injection h with h; injection h with h1 h2
      rw [← h2] at hpa
      have := enrichAll_lookup_facts lk _ 0 evs' enriched hall p a hpa
      rw [← h2]
      exact ⟨this.2.1, this.2.2⟩

theorem detailsBranch_ok (lk : Nat → Nat → MetaOutcome) (inc : Bool)
    (amount : Nat) (asset_dict : List AssetHolding)
    (hlk : ∀ p msg, lk p 0 ≠ MetaOutcome.failed msg) :
    ∃ result, detailsBranch lk inc amount asset_dict = Except.ok result := by
  simp only [detailsBranch]
  obtain ⟨⟨evs', enriched⟩, hall⟩ := enrichAll_ok lk hlk
    (if inc then asset_dict else asset_dict.filter (fun v => v.amount != 0)) 0
  rw [hall]
  simp only [Except.bind]
  by_cases hnames : enriched.all (fun e => e.name.isSome) = true
  · rw [if_pos hnames]; exact ⟨_, rfl⟩
  · rw [if_neg hnames]; exact ⟨_, rfl⟩

/-- Lookup discipline of the whole detailed listing: attempts are 0, or 1
only after a first rate-limit, and no lookup is repeated. -/
theorem fetch_details_lookup_facts (resp : IndexerResult AccountRecord)
    (lk : Nat → Nat → MetaOutcome) (addr : String) (inc : Bool)
    (out : FetchOut DetailedEntry × Bool) (evs : List MetaEvent)
    (h : fetch_asset_info_with_details resp lk addr inc = Except.ok (out, evs)) :
    ∀ p a, MetaEvent.lookup p a ∈ evs →
      (a = 0 ∨ (a = 1 ∧ ∃ msg, lk p 0 = MetaOutcome.rateLimited msg))
      ∧ List.count (MetaEvent.lookup p a) evs = 1 := by
  intro p a hpa
  cases resp with
  | httpError msg =>
    replace h :
        (if strContains msg "no accounts found for address" then
          Except.ok ((FetchOut.failure
            (msg ++ " Add initial fund to the account via https://bank.testnet.algorand.network/")
            (some 0), false), ([] : List MetaEvent))
        else Except.ok ((FetchOut.failure msg none, false), []))
        = Except.ok (out, evs) := h
    by_cases hc : strContains msg "no accounts found for address" = true
    · rw [if_pos hc] at h
      injection h with h; injection h with h1 h2
      rw [← h2] at hpa; cases hpa
    · rw [if_neg hc] at h
      injection h with h; injection h with h1 h2
      rw [← h2] at hpa; cases hpa
  | ok r =>
    obtain ⟨ramount, rassets⟩ := r
    cases rassets with
    | none =>
      replace h :
          (if ramount == 0 then
            Except.ok ((FetchOut.failure (noInitialFundMsg addr) (some 0), false),
              ([] : List MetaEvent))
          else
            Except.ok ((FetchOut.failure "Account doesn't have any asset" (some ramount),
              false), []))
          = Except.ok (out, evs) := h
      by_cases hz : (ramount == 0) = true
      · rw [if_pos hz] at h
        injection h with h; injection h with h1 h2
        rw [← h2] at hpa; cases hpa
      · rw [if_neg hz] at h
        injection h with h; injection h with h1 h2
        rw [← h2] at hpa; cases hpa
    | some asset_dict =>
      replace h :
          (if ramount == 0 then
            Except.ok ((FetchOut.failure (noInitialFundMsg addr) (some 0), false),
              ([] : List MetaEvent))
          else detailsBranch lk inc ramount asset_dict)
          = Except.ok (out, evs) := h
      by_cases hz : (ramount == 0) = true
      · rw [if_pos hz] at h
        injection h with h; injection h with h1 h2
        rw [← h2] at hpa; cases hpa
      · rw [if_neg hz] at h
        exact detailsBranch_lookup_facts lk inc ramount asset_dict out evs h p a hpa

/-- The detailed listing never propagates a retry failure: whenever no first
lookup attempt raises a non-rate-limit exception, the function returns
normally. -/
theorem fetch_details_no_propagation (resp : IndexerResult AccountRecord)
    (lk : Nat → Nat → MetaOutcome) (addr : String) (inc : Bool)
    (hlk : ∀ p msg, lk p 0 ≠ MetaOutcome.failed msg) :
    ∃ result, fetch_asset_info_with_details resp lk addr inc = Except.ok result := by
  cases resp with
  | httpError msg =>
    show ∃ result,
      (if strContains msg "no accounts found for address" then
        Except.ok ((FetchOut.failure
          (msg ++ " Add initial fund to the account via https://bank.testnet.algorand.network/")
          (some 0), false), ([] : List MetaEvent))
      else Except.ok ((FetchOut.failure msg none, false), [])) = Except.ok result
    by_cases hc : strContains msg "no accounts found for address" = true
    · rw [if_pos hc]; exact ⟨_, rfl⟩
    · rw [if_neg hc]; exact ⟨_, rfl⟩
  | ok r =>
    obtain ⟨ramount, rassets⟩ := r
    cases rassets with
    | none =>
      show ∃ result,
        (if ramount == 0 then
          Except.ok ((FetchOut.failure (noInitialFundMsg addr) (some 0), false),
            ([] : List MetaEvent))
        else
          Except.ok ((FetchOut.failure "Account doesn't have any asset" (some ramount),
            false), [])) = Except.ok result
      by_cases hz : (ramount == 0) = true
      · rw [if_pos hz]; exact ⟨_, rfl⟩
      · rw [if_neg hz]; exact ⟨_, rfl⟩
    | some asset_dict =>
      show ∃ result,
        (if ramount == 0 then
          Except.ok ((FetchOut.failure (noInitialFundMsg addr) (some 0), false),
            ([] : List MetaEvent))
        else detailsBranch lk inc ramount asset_dict) = Except.ok result
      by_cases hz : (ramount == 0) = true
      · rw [if_pos hz]; exact ⟨_, rfl⟩
      · rw [if_neg hz]
        exact detailsBranch_ok lk inc ramount asset_dict hlk

/-- C7: in fetch_asset_info_with_details, a per-asset metadata lookup that hits
a rate-limit error is retried exactly once after a fixed 0.5 s backoff; a
success is never retried; a failure of the retry is logged and the asset kept
with no name rather than the error being propagated; and across any successful
run every lookup is a first attempt or the single retry after a rate limit,
each performed exactly once. -/
theorem fetch_details_retry_policy :
    (∀ (lk : Nat → Nat → MetaOutcome) (pos : Nat) (ast : AssetHolding) (name : String),
      lk pos 0 = MetaOutcome.found name →
      enrichOne lk pos ast =
        Except.ok ([MetaEvent.lookup pos 0, MetaEvent.sleepMs 200], ⟨ast, some name⟩))
    ∧ (∀ (lk : Nat → Nat → MetaOutcome) (pos : Nat) (ast : AssetHolding) (msg : String),
      lk pos 0 = MetaOutcome.rateLimited msg →
      ∃ evs ea, enrichOne lk pos ast = Except.ok (evs, ea)
        ∧ evs.take 4 = [MetaEvent.lookup pos 0, MetaEvent.logged msg,
            MetaEvent.sleepMs 500, MetaEvent.lookup pos 1]
        ∧ (evs.filter MetaEvent.isLookup).length = 2)
    ∧ (∀ (lk : Nat → Nat → MetaOutcome) (pos : Nat) (ast : AssetHolding) (msg m2 : String),
      lk pos 0 = MetaOutcome.rateLimited msg → lk pos 1 = MetaOutcome.failed m2 →
      enrichOne lk pos ast =
        Except.ok ([MetaEvent.lookup pos 0, MetaEvent.logged msg, MetaEvent.sleepMs 500,
          MetaEvent.lookup pos 1, MetaEvent.logged m2], ⟨ast, none⟩))
    ∧ (∀ (resp : IndexerResult AccountRecord) (lk : Nat → Nat → MetaOutcome)
        (addr : String) (inc : Bool) (out : FetchOut DetailedEntry × Bool)
        (evs : List MetaEvent),
      fetch_asset_info_with_details resp lk addr inc = Except.ok (out, evs) →
      ∀ p a, MetaEvent.lookup p a ∈ evs →
        (a = 0 ∨ (a = 1 ∧ ∃ msg, lk p 0 = MetaOutcome.rateLimited msg))
        ∧ List.count (MetaEvent.lookup p a) evs = 1)
    ∧ (∀ (resp : IndexerResult AccountRecord) (lk : Nat → Nat → MetaOutcome)
        (addr : String) (inc : Bool),
      (∀ p msg, lk p 0 ≠ MetaOutcome.failed msg) →
      ∃ result, fetch_asset_info_with_details resp lk addr inc = Except.ok result) := by
  refine ⟨?_, ?_, ?_, ?_, ?_⟩
  · intro lk pos ast name h
    unfold enrichOne
    rw [h]
  · intro lk pos ast msg h0
    cases h1 : lk pos 1 with
    | found name =>
      refine ⟨[MetaEvent.lookup pos 0, MetaEvent.logged msg, MetaEvent.sleepMs 500,
        MetaEvent.lookup pos 1, MetaEvent.sleepMs 500], ⟨ast, some name⟩, ?_, rfl, rfl⟩
      unfold enrichOne
      rw [h0, h1]
    | rateLimited m2 =>
      refine ⟨[MetaEvent.lookup pos 0, MetaEvent.logged msg, MetaEvent.sleepMs 500,
        MetaEvent.lookup pos 1, MetaEvent.logged m2], ⟨ast, none⟩, ?_, rfl, rfl⟩
      unfold enrichOne
      rw [h0, h1]
    | failed m2 =>
      refine ⟨[MetaEvent.lookup pos 0, MetaEvent.logged msg, MetaEvent.sleepMs 500,
        MetaEvent.lookup pos 1, MetaEvent.logged m2], ⟨ast, none⟩, ?_, rfl, rfl⟩
      unfold enrichOne
      rw [h0, h1]
  · intro lk pos ast msg m2 h0 h1
    unfold enrichOne
    rw [h0, h1]
  · exact fun resp lk addr inc out evs h =>
      fetch_details_lookup_facts resp lk addr inc out evs h
  · exact fun resp lk addr inc hlk =>
      fetch_details_no_propagation resp lk addr inc hlk

/-- Concrete check for the retry policy: with one asset whose first metadata
lookup is rate limited and whose retry succeeds, enrichOne performs exactly the
two lookups with the 0.5 s backoff between them. -/
theorem fetch_details_retry_policy_witness :
    ∃ evs ea,
      enrichOne (fun _ a => if a = 0 then MetaOutcome.rateLimited "429" else
        MetaOutcome.found "NM") 0 ⟨7, 5⟩ = Except.ok (evs, ea)
      ∧ evs.take 4 = [MetaEvent.lookup 0 0, MetaEvent.logged "429",
          MetaEvent.sleepMs 500, MetaEvent.lookup 0 1]
      ∧ (evs.filter MetaEvent.isLookup).length = 2 :=
  fetch_details_retry_policy.2.1
    (fun _ a => if a = 0 then MetaOutcome.rateLimited "429" else MetaOutcome.found "NM")
    0 ⟨7, 5⟩ "429" rfl
